import Mathlib

/-!
Shallow embedding of the maccam912/todo task-management backend, covering the
parts exercised by the verification claims: the calendar arithmetic used for
recurring tasks (`dateutil.relativedelta` as used in
`app/services/task_service.py`), ISO date parsing
(`datetime.date.fromisoformat` as used by
`StateMachine._normalize_task_attrs`), the task store
(`app/services/task_service.py`), scope-based authorization
(`app/core/scope.py`), and the LLM command state machine
(`app/state_machine/machine.py`).

Python `dict[str, Any]` values are embedded as association lists over a small
universe `Val` of the JSON-schema-conformant values that the LLM tool schema
(`app/services/llm_service.py`) can produce: strings, integers, integer
lists, dates (after normalization) and `None`.  Python truthiness and the
`dict.get/pop/in` operations are modelled explicitly.
-/

namespace Todo

/-- Calendar date, mirroring Python `datetime.date` (year, month, day). -/
structure Date where
  year : Int
  month : Nat
  day : Nat
deriving DecidableEq, Repr

/-- Gregorian leap-year rule, as implemented by Python's `calendar`/`dateutil`. -/
def isLeapYear (y : Int) : Bool :=
  y % 4 == 0 && (y % 100 != 0 || y % 400 == 0)

/-- Number of days in a month of a given year. -/
def daysInMonth (y : Int) (m : Nat) : Nat :=
  if m == 2 then (if isLeapYear y then 29 else 28)
  else if m == 4 || m == 6 || m == 9 || m == 11 then 30
  else 31

/-- Successor day in the calendar (rolls over month and year boundaries). -/
def nextCalendarDay (d : Date) : Date :=
  if d.day < daysInMonth d.year d.month then ⟨d.year, d.month, d.day + 1⟩
  else if d.month < 12 then ⟨d.year, d.month + 1, 1⟩
  else ⟨d.year + 1, 1, 1⟩

/-- `d + relativedelta(days=n)` for a valid date `d`. -/
def addDays : Date → Nat → Date
  | d, 0 => d
  | d, n + 1 => addDays (nextCalendarDay d) n

/-- `d + relativedelta(months=1)`: increment the month (rolling the year) and
clamp the day to the length of the target month. -/
def addOneMonth (d : Date) : Date :=
  let y := if d.month == 12 then d.year + 1 else d.year
  let m := if d.month == 12 then 1 else d.month + 1
  ⟨y, m, min d.day (daysInMonth y m)⟩

/-- `d + relativedelta(years=1)`: increment the year and clamp the day
(Feb 29 becomes Feb 28 in a non-leap year). -/
def addOneYear (d : Date) : Date :=
  ⟨d.year + 1, d.month, min d.day (daysInMonth (d.year + 1) d.month)⟩

/-- Value of a decimal digit character. -/
def digitVal (c : Char) : Option Nat :=
  if c.isDigit then some (c.toNat - 48) else none

/-- `datetime.date.fromisoformat` on the canonical `YYYY-MM-DD` format:
ten characters, digits in the date positions, dashes at positions 4 and 7,
with the month, day and year ranges validated (Python's `date` requires
`MINYEAR = 1`).  Returns `none` where Python raises `ValueError`. -/
def date_fromisoformat (s : String) : Option Date :=
  match s.data with
  | [y1, y2, y3, y4, h1, m1, m2, h2, d1, d2] =>
    if h1 = '-' && h2 = '-' then
      match digitVal y1, digitVal y2, digitVal y3, digitVal y4,
            digitVal m1, digitVal m2, digitVal d1, digitVal d2 with
      | some a, some b, some c, some e, some f, some g, some i, some j =>
        let y : Nat := ((a * 10 + b) * 10 + c) * 10 + e
        let mo : Nat := f * 10 + g
        let dd : Nat := i * 10 + j
        if 1 ≤ y && 1 ≤ mo && mo ≤ 12 && 1 ≤ dd && dd ≤ daysInMonth (y : Int) mo
        then some ⟨(y : Int), mo, dd⟩ else none
      | _, _, _, _, _, _, _, _ => none
    else none
  | _ => none

/-- Universe of attribute values appearing in command parameter dictionaries
(schema-conformant JSON values, plus `date` objects produced by
normalization and Python `None`). -/
inductive Val where
  | vs (s : String)
  | vi (i : Int)
  | vli (l : List Int)
  | vd (d : Date)
  | vn
deriving DecidableEq, Repr

/-- Python truthiness of a `Val` (`if not value: ...`). -/
def truthy : Val → Bool
  | .vs s => !(s == "")
  | .vi i => !(i == 0)
  | .vli l => !l.isEmpty
  | .vd _ => true
  | .vn => false

/-- A Python `dict[str, Any]` as an association list (keys unique, in
insertion order). -/
abbrev Attrs := List (String × Val)

/-- `k in d`. -/
def dictMem (a : Attrs) (k : String) : Bool :=
  a.any (fun p => p.1 == k)

/-- `d.get(k)` distinguished from a stored `None`. -/
def dictFind (a : Attrs) (k : String) : Option Val :=
  (a.find? (fun p => p.1 == k)).map (fun p => p.2)

/-- `d.get(k)`: absent keys read as Python `None`. -/
def pyGet (a : Attrs) (k : String) : Val :=
  (dictFind a k).getD .vn

/-- `d[k] = v`: overwrite in place, or append a fresh key at the end
(Python dict insertion order). -/
def dictSet (a : Attrs) (k : String) (v : Val) : Attrs :=
  if dictMem a k then
    a.map (fun p => if p.1 == k then (k, v) else p)
  else a ++ [(k, v)]

/-- `d.pop(k, None)` (the remaining dictionary). -/
def dictPop (a : Attrs) (k : String) : Attrs :=
  a.filter (fun p => !(p.1 == k))

/-- One date-field normalization step of `StateMachine._normalize_task_attrs`:
if the field is present and holds a string, replace it by the parsed date,
or by `None` when `date.fromisoformat` raises. -/
def normalizeDateField (a : Attrs) (k : String) : Attrs :=
  match dictFind a k with
  | some (.vs s) =>
    dictSet a k (match date_fromisoformat s with
      | some d => .vd d
      | none => .vn)
  | _ => a

/-- `StateMachine._normalize_task_attrs`: convert the `due_date` and
`deferred_until` string values to dates (`None` on parse failure), then
rename a `status` key to `task_status` (`normalized["task_status"] =
normalized.pop("status")`). -/
def normalize_task_attrs (attrs : Attrs) : Attrs :=
  let n1 := normalizeDateField (normalizeDateField attrs "due_date") "deferred_until"
  if dictMem n1 "status" then
    dictSet (dictPop n1 "status") "task_status" (pyGet n1 "status")
  else n1

/-- Row of the `tasks` table (`app/models/task.py`, mirrored by
`alembic/versions/001_initial_schema.py`).  The audit timestamps are not
modelled; status, urgency and recurrence are stored as their string values,
as in the columns. -/
structure Task where
  id : Int
  user_id : Int
  assignee_id : Option Int := none
  assigned_group_id : Option Int := none
  title : String
  description : Option String := none
  notes : Option String := none
  status : String := "todo"
  urgency : String := "normal"
  due_date : Option Date := none
  deferred_until : Option Date := none
  recurrence : String := "none"
deriving DecidableEq, Repr

/-- Row of `task_dependencies`: a directed edge blocked task → prerequisite. -/
structure TaskDependency where
  blocked_task_id : Int
  prereq_task_id : Int
deriving DecidableEq, Repr

/-- Row of `group_memberships`: exactly one of `user_id`/`member_group_id`
is set (DB check constraint `exactly_one_member_type`). -/
structure GroupMembership where
  group_id : Int
  user_id : Option Int := none
  member_group_id : Option Int := none
deriving DecidableEq, Repr

/-- The database state visible to the service layer: the `tasks` and
`task_dependencies` and `group_memberships` tables, plus the id sequence for
`tasks` (Postgres assigns `next_task_id` to the next inserted row). -/
structure DB where
  tasks : List Task
  deps : List TaskDependency
  memberships : List GroupMembership
  next_task_id : Int
deriving DecidableEq, Repr

/-- `Scope` (`app/core/scope.py`): the authenticated principal.  Only
`scope.user.id` is consulted by the task service and state machine; the
optional preference record feeds only the LLM system prompt. -/
structure Scope where
  userId : Int
deriving DecidableEq, Repr

/-- Memberships naming `user_id = uid` directly. -/
def directMemberships (db : DB) (uid : Int) : List GroupMembership :=
  db.memberships.filter (fun m => m.user_id == some uid)

/-- Groups that list `gid` as a nested member group. -/
def parentGroupsOf (db : DB) (gid : Int) : List Int :=
  (db.memberships.filter (fun m => m.member_group_id == some gid)).map
    (fun m => m.group_id)

/-- `_get_parent_group_ids` (`app/core/scope.py`): upward closure from a
group through every group that contains it, with a shared visited set.
Fuel-indexed to express the Python recursion; `membershipFuel` fuel always
suffices because each nested call adds one fresh group id to `visited`.
Returns (parent ids found, updated visited set). -/
def get_parent_group_ids (db : DB) : Nat → Int → List Int → (List Int × List Int)
  | 0, _, visited => ([], visited)
  | fuel + 1, gid, visited =>
    if gid ∈ visited then ([], visited)
    else parentLoop db fuel (parentGroupsOf db gid) [gid] (gid :: visited)
where
  /-- The `for membership in parent_memberships` loop body. -/
  parentLoop (db : DB) (fuel : Nat) :
      List Int → List Int → List Int → (List Int × List Int)
    | [], ids, visited => (ids, visited)
    | p :: ps, ids, visited =>
      if p ∉ visited then
        let r := get_parent_group_ids db fuel p visited
        parentLoop db fuel ps (ids ++ r.1) r.2
      else parentLoop db fuel ps ids visited

/-- Fuel that dominates the depth of any visited-set recursion over the
membership table (each level consumes one fresh group id, of which there are
at most `memberships.length` relevant ones). -/
def membershipFuel (db : DB) : Nat := db.memberships.length + 1

/-- `get_user_group_ids` (`app/core/scope.py`): all groups the user belongs
to, directly or through parents of directly-joined groups.  The outer loop
keeps its own visited set, handing each parent recursion a copy
(`visited.copy()`), exactly as in the source. -/
def get_user_group_ids (db : DB) (uid : Int) : List Int :=
  userGroupsLoop db (directMemberships db uid) [] []
where
  userGroupsLoop (db : DB) :
      List GroupMembership → List Int → List Int → List Int
    | [], _, group_ids => group_ids
    | m :: ms, visited, group_ids =>
      if m.group_id ∈ visited then userGroupsLoop db ms visited group_ids
      else
        let visited' := m.group_id :: visited
        let group_ids' := group_ids ++ [m.group_id]
        let parents := parentGroupsOf db m.group_id
        userGroupsLoop db ms visited'
          (parentFold db visited' parents group_ids')
  parentFold (db : DB) (visited : List Int) :
      List Int → List Int → List Int
    | [], group_ids => group_ids
    | p :: ps, group_ids =>
      if p ∉ visited then
        parentFold db visited ps
          (group_ids ++ (get_parent_group_ids db (membershipFuel db) p visited).1)
      else parentFold db visited ps group_ids

/-- `can_access_task`: owner, direct assignee, or member (transitively) of
the assigned group.  Python's early returns are modelled as nested ifs; the
group branch fires only for a truthy `assigned_group_id`. -/
def can_access_task (db : DB) (scope : Scope) (t : Task) : Bool :=
  if t.user_id == scope.userId then true
  else if t.assignee_id == some scope.userId then true
  else
    match t.assigned_group_id with
    | some g => if g != 0 then decide (g ∈ get_user_group_ids db scope.userId) else false
    | none => false

/-- `can_modify_task`: only the owner may modify. -/
def can_modify_task (scope : Scope) (t : Task) : Bool :=
  t.user_id == scope.userId

/-- Member-group children of a group: memberships of `gid` whose member is a
nested group (the SQL filter `member_group_id IS NOT NULL`). -/
def childGroupsOf (db : DB) (gid : Int) : List Int :=
  (db.memberships.filter
      (fun m => m.group_id == gid && m.member_group_id.isSome)).filterMap
    (fun m => m.member_group_id)

/-- `_get_all_member_groups` (`app/core/scope.py`): all groups contained in
`gid`, recursively, sharing one visited set across the whole traversal.
The loop guard `if membership.member_group_id and ...` skips a (never
DB-assigned) group id `0` by Python truthiness.  Fuel-indexed; any fuel
larger than the number of member-group ids gives the Python result. -/
def get_all_member_groups (db : DB) : Nat → Int → List Int → (List Int × List Int)
  | 0, _, visited => ([], visited)
  | fuel + 1, gid, visited =>
    if gid ∈ visited then ([], visited)
    else memberLoop db fuel (childGroupsOf db gid) [gid] (gid :: visited)
where
  /-- The `for membership in memberships` loop body. -/
  memberLoop (db : DB) (fuel : Nat) :
      List Int → List Int → List Int → (List Int × List Int)
    | [], ids, visited => (ids, visited)
    | c :: cs, ids, visited =>
      if c ≠ 0 ∧ c ∉ visited then
        let r := get_all_member_groups db fuel c visited
        memberLoop db fuel cs (ids ++ r.1) r.2
      else memberLoop db fuel cs ids visited

/-- `check_circular_group_reference`: adding `child` to `parent` creates a
cycle iff `parent` is already among the groups `child` (recursively)
contains. -/
def check_circular_group_reference (db : DB) (parent child : Int) : Bool :=
  decide (parent ∈ (get_all_member_groups db (membershipFuel db) child []).1)

/-- Exceptions raised by the service layer: `fastapi.HTTPException` with its
status code and detail, plus the `ValueError`/`TypeError` that commit-time
target resolution and keyword binding can raise. -/
inductive PyErr where
  | http (status : Int) (detail : String)
  | valueError (msg : String)
  | typeError (msg : String)
deriving DecidableEq, Repr

/-- `get_task_by_id` (`app/services/task_service.py`): the task with the
given primary key, or `None` when absent or not accessible under the scope. -/
def get_task_by_id (db : DB) (scope : Scope) (task_id : Int) : Option Task :=
  match db.tasks.find? (fun t => t.id == task_id) with
  | none => none
  | some t => if can_access_task db scope t then some t else none

/-- Keyword parameters of `create_task` (after `db` and `scope`). -/
def createTaskKwargs : List String :=
  ["title", "description", "notes", "task_status", "urgency", "due_date",
   "deferred_until", "recurrence", "assignee_id", "assigned_group_id",
   "prerequisite_ids"]

/-- Bind an optional-string keyword: absent or `None` gives the default. -/
def bindStr (a : Attrs) (k : String) (dflt : Option String) :
    Except PyErr (Option String) :=
  match dictFind a k with
  | none => .ok dflt
  | some .vn => .ok none
  | some (.vs s) => .ok (some s)
  | some _ => .error (.typeError ("bad value for " ++ k))

/-- Bind an optional-date keyword. -/
def bindDate (a : Attrs) (k : String) : Except PyErr (Option Date) :=
  match dictFind a k with
  | none => .ok none
  | some .vn => .ok none
  | some (.vd d) => .ok (some d)
  | some _ => .error (.typeError ("bad value for " ++ k))

/-- Bind an optional-integer keyword. -/
def bindInt (a : Attrs) (k : String) : Except PyErr (Option Int) :=
  match dictFind a k with
  | none => .ok none
  | some .vn => .ok none
  | some (.vi i) => .ok (some i)
  | some _ => .error (.typeError ("bad value for " ++ k))

/-- Bind the optional `prerequisite_ids` list keyword. -/
def bindIntList (a : Attrs) (k : String) : Except PyErr (Option (List Int)) :=
  match dictFind a k with
  | none => .ok none
  | some .vn => .ok none
  | some (.vli l) => .ok (some l)
  | some _ => .error (.typeError ("bad value for " ++ k))

/-- Add the prerequisite dependencies of a freshly created task: each id
must resolve to an accessible task, else 404. -/
def addPrereqs (scope : Scope) (blocked : Int) :
    DB → List Int → Except PyErr DB
  | db, [] => .ok db
  | db, pid :: pids =>
    match get_task_by_id db scope pid with
    | none =>
      .error (.http 404 ("Prerequisite task " ++ toString pid ++ " not found"))
    | some _ =>
      addPrereqs scope blocked
        { db with deps := db.deps ++ [⟨blocked, pid⟩] } pids

/-- `create_task` (`app/services/task_service.py`) called with `**attrs`
keyword expansion, as `commit_operations` does.  Unknown keywords or a
missing `title` raise `TypeError`; conflicting user and group assignment
(Python truthiness on the ids) raises 400; the row is inserted with the
next sequence id and the prerequisite edges are added, each prerequisite
validated for existence and access. -/
def create_task (db : DB) (scope : Scope) (attrs : Attrs) :
    Except PyErr (DB × Task) :=
  if !(attrs.all (fun p => p.1 ∈ createTaskKwargs)) then
    .error (.typeError "unexpected keyword argument")
  else
    match dictFind attrs "title" with
    | none => .error (.typeError "missing required argument title")
    | some (.vs title) =>
      match bindStr attrs "description" none, bindStr attrs "notes" none,
          bindStr attrs "task_status" (some "todo"),
          bindStr attrs "urgency" (some "normal"),
          bindDate attrs "due_date", bindDate attrs "deferred_until",
          bindStr attrs "recurrence" (some "none"),
          bindInt attrs "assignee_id", bindInt attrs "assigned_group_id",
          bindIntList attrs "prerequisite_ids" with
      | .ok description, .ok notes, .ok task_status, .ok urgency,
        .ok due_date, .ok deferred_until, .ok recurrence, .ok assignee_id,
        .ok assigned_group_id, .ok prerequisite_ids =>
        if (match assignee_id with | some i => i != 0 | none => false) &&
           (match assigned_group_id with | some g => g != 0 | none => false)
        then .error (.http 400 "Cannot assign to both user and group")
        else
          let task : Task :=
            { id := db.next_task_id
              user_id := scope.userId
              assignee_id := assignee_id
              assigned_group_id := assigned_group_id
              title := title
              description := description
              notes := notes
              status := task_status.getD "todo"
              urgency := urgency.getD "normal"
              due_date := due_date
              deferred_until := deferred_until
              recurrence := recurrence.getD "none" }
          let db1 : DB :=
            { db with
              tasks := db.tasks ++ [task]
              next_task_id := db.next_task_id + 1 }
          match addPrereqs scope task.id db1 (prerequisite_ids.getD []) with
          | .error e => .error e
          | .ok db2 => .ok (db2, task)
      | _, _, _, _, _, _, _, _, _, _ =>
        .error (.typeError "bad keyword argument value")
    | some _ => .error (.typeError "bad value for title")

/-- `setattr(task, field, value)` for schema fields, with the
`hasattr(task, field)` guard: unknown attribute names (in particular the
renamed `task_status` key) fall through without effect.  Values are
schema-typed; a shape mismatch leaves the row unchanged. -/
def setTaskField (t : Task) (f : String) (v : Val) : Task :=
  if f == "title" then match v with | .vs s => { t with title := s } | _ => t
  else if f == "description" then
    match v with | .vs s => { t with description := some s } | _ => t
  else if f == "notes" then
    match v with | .vs s => { t with notes := some s } | _ => t
  else if f == "status" then
    match v with | .vs s => { t with status := s } | _ => t
  else if f == "urgency" then
    match v with | .vs s => { t with urgency := s } | _ => t
  else if f == "recurrence" then
    match v with | .vs s => { t with recurrence := s } | _ => t
  else if f == "due_date" then
    match v with | .vd d => { t with due_date := some d } | _ => t
  else if f == "deferred_until" then
    match v with | .vd d => { t with deferred_until := some d } | _ => t
  else if f == "assignee_id" then
    match v with | .vi i => { t with assignee_id := some i } | _ => t
  else if f == "assigned_group_id" then
    match v with | .vi i => { t with assigned_group_id := some i } | _ => t
  else if f == "id" then match v with | .vi i => { t with id := i } | _ => t
  else if f == "user_id" then
    match v with | .vi i => { t with user_id := i } | _ => t
  else t

/-- The `for field, value in updates.items()` loop of `update_task`:
`setattr` fires only for non-`None` values on existing attributes. -/
def applyUpdates (t : Task) : Attrs → Task
  | [] => t
  | (f, v) :: rest =>
    if v != .vn then applyUpdates (setTaskField t f v) rest
    else applyUpdates t rest

/-- Replace the row with the given id (primary-key update of a mutated ORM
object). -/
def replaceTask (db : DB) (t : Task) : DB :=
  { db with tasks := db.tasks.map (fun x => if x.id == t.id then t else x) }

/-- `update_task` (`app/services/task_service.py`): 404 when absent or
inaccessible, 403 for non-owners, 400 when the update sets both assignees
(truthily); `prerequisite_ids` (when present and not `None`) replaces the
dependency edges of the task, each new prerequisite validated; remaining
fields are applied through the `hasattr` setattr loop. -/
def update_task (db : DB) (scope : Scope) (task_id : Int) (updates : Attrs) :
    Except PyErr (DB × Task) :=
  match get_task_by_id db scope task_id with
  | none => .error (.http 404 "Task not found")
  | some t =>
    if !can_modify_task scope t then
      .error (.http 403 "Not authorized to modify this task")
    else if dictMem updates "assignee_id" && dictMem updates "assigned_group_id"
        && truthy (pyGet updates "assignee_id") &&
        truthy (pyGet updates "assigned_group_id") then
      .error (.http 400 "Cannot assign to both user and group")
    else
      let updates1 := dictPop updates "prerequisite_ids"
      let step2 := fun (db1 : DB) =>
        let t1 := applyUpdates t updates1
        (Except.ok (replaceTask db1 t1, t1) : Except PyErr (DB × Task))
      match dictFind updates "prerequisite_ids" with
      | none => step2 db
      | some .vn => step2 db
      | some (.vli pids) =>
        let cleared : DB :=
          { db with
            deps := db.deps.filter (fun d => !(d.blocked_task_id == t.id)) }
        match addPrereqs scope t.id cleared pids with
        | .error e => .error e
        | .ok db1 => step2 db1
      | some _ => .error (.typeError "prerequisite_ids is not iterable")

/-- `delete_task`: 404 when absent or inaccessible, 403 for non-owners;
deletion cascades to the task's dependency edges (FK `ON DELETE CASCADE`). -/
def delete_task (db : DB) (scope : Scope) (task_id : Int) : Except PyErr DB :=
  match get_task_by_id db scope task_id with
  | none => .error (.http 404 "Task not found")
  | some t =>
    if !can_modify_task scope t then
      .error (.http 403 "Not authorized to delete this task")
    else
      .ok { db with
            tasks := db.tasks.filter (fun x => !(x.id == t.id))
            deps := db.deps.filter
              (fun d => !(d.blocked_task_id == t.id) &&
                !(d.prereq_task_id == t.id)) }

/-- Prerequisite tasks of `t`: the join of `task_dependencies` rows blocked
by `t` with the `tasks` table. -/
def prereqTasks (db : DB) (t : Task) : List Task :=
  (db.deps.filter (fun d => d.blocked_task_id == t.id)).filterMap
    (fun d => db.tasks.find? (fun p => p.id == d.prereq_task_id))

/-- The successor due date computed inline by `_create_recurring_task` from
the recurrence string (`dateutil.relativedelta`). -/
def nextDueDate (recurrence : String) (d : Date) : Option Date :=
  if recurrence == "daily" then some (addDays d 1)
  else if recurrence == "weekly" then some (addDays d 7)
  else if recurrence == "monthly" then some (addOneMonth d)
  else if recurrence == "yearly" then some (addOneYear d)
  else none

/-- `_create_recurring_task`: insert the next instance of a recurring task —
same owner, assignment, title, description, notes, urgency and recurrence,
status reset to `todo`, the due date advanced by the recurrence interval
(and `deferred_until` not carried over) — and copy every prerequisite edge
of the original onto the new row. -/
def create_recurring_task (db : DB) (original : Task) : DB × Task :=
  let new_due :=
    match original.due_date with
    | none => none
    | some d => nextDueDate original.recurrence d
  let newTask : Task :=
    { id := db.next_task_id
      user_id := original.user_id
      assignee_id := original.assignee_id
      assigned_group_id := original.assigned_group_id
      title := original.title
      description := original.description
      notes := original.notes
      status := "todo"
      urgency := original.urgency
      due_date := new_due
      deferred_until := none
      recurrence := original.recurrence }
  let copied :=
    (db.deps.filter (fun d => d.blocked_task_id == original.id)).map
      (fun d => (⟨newTask.id, d.prereq_task_id⟩ : TaskDependency))
  ({ db with
      tasks := db.tasks ++ [newTask]
      deps := db.deps ++ copied
      next_task_id := db.next_task_id + 1 }, newTask)

/-- `complete_task`: 404 / 403 as above; 400 `PreconditionFailed` when any
prerequisite task is not in `done` status, raised before any mutation; on
success the task's status becomes `done`, and an active recurrence spawns
the successor task, which is then the returned task. -/
def complete_task (db : DB) (scope : Scope) (task_id : Int) :
    Except PyErr (DB × Task) :=
  match get_task_by_id db scope task_id with
  | none => .error (.http 404 "Task not found")
  | some t =>
    if !can_modify_task scope t then
      .error (.http 403 "Not authorized to complete this task")
    else
      let incomplete :=
        (prereqTasks db t).filter (fun p => !(p.status == "done"))
      if !incomplete.isEmpty then
        .error (.http 400
          ("Cannot complete: " ++ toString incomplete.length ++
            " incomplete prerequisites"))
      else
        let t1 := { t with status := "done" }
        let db1 := replaceTask db t1
        if t1.recurrence != "none" then
          let r := create_recurring_task db1 t1
          .ok (r.1, r.2)
        else
          .ok (db1, t1)

/-- Target kind of a staged operation: a real task id or a session-local
pending reference (`("existing", N)` / `("pending", N)` tuples). -/
inductive TKind where
  | existing
  | pending
deriving DecidableEq, Repr

/-- A staged operation target. -/
abbrev Target := TKind × Int

/-- Operation kinds of `PendingOperation.type`. -/
inductive OpType where
  | create_task
  | update_task
  | complete_task
  | delete_task
deriving DecidableEq, Repr

/-- `PendingOperation` (`app/state_machine/machine.py`). -/
structure PendingOperation where
  type : OpType
  target : Target
  attrs : Attrs := []
deriving DecidableEq, Repr

/-- The machine state: `"awaiting_command"`, `"completed"`, or the tuple
`("editing_task", target)`. -/
inductive MState where
  | awaiting_command
  | completed
  | editing_task (target : Target)
deriving DecidableEq, Repr

/-- The edit context stored by `select_task` (a task snapshot for existing
targets, the staged operation for pending ones). -/
inductive EditCtx where
  | existingTask (task_id : Int) (task : Task)
  | pendingRef (ref : Int) (op : PendingOperation)
deriving DecidableEq, Repr

/-- Session state of `StateMachine` (scope, machine state, staged
operations, edit context, pending-reference counter, plan notes, error
counter; the uuid session id is not modelled). -/
structure Machine where
  scope : Scope
  state : MState := .awaiting_command
  pending_ops : List PendingOperation := []
  edit_context : Option EditCtx := none
  next_pending_ref : Int := 1
  plan_notes : List Val := []
  error_count : Nat := 0
deriving DecidableEq, Repr

/-- `StateMachine.__init__`. -/
def initMachine (scope : Scope) : Machine := { scope := scope }

/-- Commit summary (`commit_operations`): (id, title) pairs per category. -/
structure Summary where
  created : List (Int × String) := []
  updated : List (Int × String) := []
  deleted : List (Int × String) := []
  completed : List (Int × String) := []
deriving DecidableEq, Repr

/-- Result of `handle_command`: the success flag and response message, the
machine and database afterwards, and the commit summary when present. -/
structure CmdResult where
  ok : Bool
  msg : String
  machine : Machine
  db : DB
  summary : Option Summary := none
deriving DecidableEq, Repr

/-- The incrementally built `pending_map` from pending references to created
task ids. -/
abbrev PMap := List (Int × Int)

/-- `pending_map[ref] = id`. -/
def pmapSet (m : PMap) (ref id : Int) : PMap :=
  if m.any (fun p => p.1 == ref) then
    m.map (fun p => if p.1 == ref then (ref, id) else p)
  else m ++ [(ref, id)]

/-- `ref in pending_map` lookup. -/
def pmapFind (m : PMap) (ref : Int) : Option Int :=
  (m.find? (fun p => p.1 == ref)).map (fun p => p.2)

/-- `StateMachine._resolve_target`: existing targets pass through; pending
targets resolve through `pending_map`, raising `ValueError` when unmapped. -/
def resolve_target (target : Target) (pmap : PMap) : Except PyErr Int :=
  match target.1 with
  | .existing => .ok target.2
  | .pending =>
    match pmapFind pmap target.2 with
    | none =>
      .error (.valueError
        ("Pending task " ++ toString target.2 ++ " not yet created"))
    | some id => .ok id

/-- `StateMachine.commit_operations`: apply the staged operations in staged
order, one store call each, threading the database and building
`pending_map` incrementally — a create's resulting id is recorded under its
pending reference immediately.  Deletes are skipped silently when
`get_task_by_id` finds nothing.  Returns the error and the database as left
by the already-applied operations (the batch is not rolled back). -/
def commitOps (scope : Scope) :
    DB → PMap → Summary → List PendingOperation → Except PyErr Summary × DB
  | db, _, summary, [] => (.ok summary, db)
  | db, pmap, summary, op :: rest =>
    match op.type with
    | .create_task =>
      match create_task db scope (normalize_task_attrs op.attrs) with
      | .error e => (.error e, db)
      | .ok (db1, t) =>
        commitOps scope db1 (pmapSet pmap op.target.2 t.id)
          { summary with created := summary.created ++ [(t.id, t.title)] } rest
    | .update_task =>
      match resolve_target op.target pmap with
      | .error e => (.error e, db)
      | .ok task_id =>
        match update_task db scope task_id (normalize_task_attrs op.attrs) with
        | .error e => (.error e, db)
        | .ok (db1, t) =>
          commitOps scope db1 pmap
            { summary with updated := summary.updated ++ [(t.id, t.title)] } rest
    | .complete_task =>
      match resolve_target op.target pmap with
      | .error e => (.error e, db)
      | .ok task_id =>
        match complete_task db scope task_id with
        | .error e => (.error e, db)
        | .ok (db1, t) =>
          commitOps scope db1 pmap
            { summary with
              completed := summary.completed ++ [(t.id, t.title)] } rest
    | .delete_task =>
      match resolve_target op.target pmap with
      | .error e => (.error e, db)
      | .ok task_id =>
        match get_task_by_id db scope task_id with
        | none => commitOps scope db pmap summary rest
        | some t =>
          match delete_task db scope task_id with
          | .error e => (.error e, db)
          | .ok db1 =>
            commitOps scope db1 pmap
              { summary with
                deleted := summary.deleted ++ [(task_id, t.title)] } rest

/-- Split a character sequence at the first colon, if any. -/
def splitOnceColon : List Char → Option (List Char × List Char)
  | [] => none
  | c :: cs =>
    if c = ':' then some ([], cs)
    else (splitOnceColon cs).map (fun p => (c :: p.1, p.2))

/-- `s.split(":", 1)`: everything before the first colon and everything
after it, or the whole string when no colon occurs. -/
def pySplitColon1 (s : String) : List String :=
  match splitOnceColon s.data with
  | none => [s]
  | some (a, b) => [String.mk a, String.mk b]

/-- Decimal digit run to a number. -/
def digitsToNat : List Char → Option Nat
  | [] => none
  | cs =>
    cs.foldl
      (fun acc c =>
        match acc, digitVal c with
        | some n, some v => some (n * 10 + v)
        | _, _ => none)
      (some 0)

/-- `int(s)` on canonical decimal literals (optional sign, digits).  Python
also strips whitespace and allows underscores; those inputs never arise
from the target strings the machine handles, so accepting this subset keeps
the embedding sound on every string it accepts. -/
def pyInt (s : String) : Option Int :=
  match s.data with
  | '-' :: ds => (digitsToNat ds).map (fun n => -(n : Int))
  | '+' :: ds => (digitsToNat ds).map (fun n => (n : Int))
  | ds => (digitsToNat ds).map (fun n => (n : Int))

/-- The `try` block of `_handle_select_task`: split the target string on the
first colon and parse the id; `None`/unpack/parse failures all raise into
the `Invalid target format` branch. -/
def parseTarget (s : String) : Option (String × Int) :=
  match pySplitColon1 s with
  | [a, b] => (pyInt b).map (fun n => (a, n))
  | _ => none

/-- `_handle_record_plan`. -/
def handle_record_plan (m : Machine) (db : DB) (params : Attrs) : CmdResult :=
  let plan := pyGet params "plan"
  if !truthy plan then ⟨false, "Plan is required", m, db, none⟩
  else
    ⟨true, "Plan recorded", { m with plan_notes := m.plan_notes ++ [plan] },
      db, none⟩

/-- `_handle_select_task`: legal only in `awaiting_command`; parses the
target, validates an existing task for access (404-style failure otherwise)
or looks the pending reference up among the staged operations, and
transitions into `editing_task(target)`. -/
def handle_select_task (m : Machine) (db : DB) (params : Attrs) : CmdResult :=
  if m.state != .awaiting_command then
    ⟨false, "Must be in awaiting_command state to select task", m, db, none⟩
  else
    let target_str := pyGet params "target"
    if !truthy target_str then ⟨false, "Target is required", m, db, none⟩
    else
      match target_str with
      | .vs s =>
        match parseTarget s with
        | none => ⟨false, "Invalid target format: " ++ s, m, db, none⟩
        | some (tt, n) =>
          if tt != "existing" && tt != "pending" then
            ⟨false, "Invalid target type: " ++ tt, m, db, none⟩
          else if tt == "existing" then
            match get_task_by_id db m.scope n with
            | none =>
              ⟨false, "Task " ++ toString n ++ " not found", m, db, none⟩
            | some task =>
              ⟨true, "Selected task: " ++ s,
                { m with
                  state := .editing_task (.existing, n)
                  edit_context := some (.existingTask n task) }, db, none⟩
          else
            match m.pending_ops.find?
                (fun op => op.target == ((.pending, n) : Target)) with
            | none =>
              ⟨false, "Pending task " ++ toString n ++ " not found", m, db, none⟩
            | some op =>
              ⟨true, "Selected task: " ++ s,
                { m with
                  state := .editing_task (.pending, n)
                  edit_context := some (.pendingRef n op) }, db, none⟩
      | _ => ⟨false, "Invalid target format", m, db, none⟩

/-- `_handle_create_task`: requires a truthy title, stages a create
operation under the next pending reference and increments the counter; no
state transition. -/
def handle_create_task (m : Machine) (db : DB) (params : Attrs) : CmdResult :=
  if !truthy (pyGet params "title") then
    ⟨false, "Title is required", m, db, none⟩
  else
    let ref := m.next_pending_ref
    ⟨true, "Task creation staged with pending_ref " ++ toString ref,
      { m with
        pending_ops := m.pending_ops ++
          [{ type := .create_task, target := (.pending, ref), attrs := params }]
        next_pending_ref := m.next_pending_ref + 1 }, db, none⟩

/-- Stage an editing-state operation against the selected target (the common
body of `_handle_update_task_fields` / `_handle_complete_task` /
`_handle_delete_task`). -/
def stageEditingOp (m : Machine) (db : DB) (ty : OpType) (attrs : Attrs)
    (failMsg okMsg : String) : CmdResult :=
  match m.state with
  | .editing_task target =>
    ⟨true, okMsg,
      { m with pending_ops := m.pending_ops ++
          [{ type := ty, target := target, attrs := attrs }] }, db, none⟩
  | _ => ⟨false, failMsg, m, db, none⟩

/-- `_handle_update_task_fields`. -/
def handle_update_task_fields (m : Machine) (db : DB) (params : Attrs) :
    CmdResult :=
  stageEditingOp m db .update_task params
    "Must be in editing_task state to update fields" "Update staged"

/-- `_handle_complete_task`. -/
def handle_complete_task (m : Machine) (db : DB) (_params : Attrs) : CmdResult :=
  stageEditingOp m db .complete_task []
    "Must be in editing_task state to complete task" "Completion staged"

/-- `_handle_delete_task`. -/
def handle_delete_task (m : Machine) (db : DB) (_params : Attrs) : CmdResult :=
  stageEditingOp m db .delete_task []
    "Must be in editing_task state to delete task" "Deletion staged"

/-- `_handle_exit_editing`. -/
def handle_exit_editing (m : Machine) (db : DB) (_params : Attrs) : CmdResult :=
  match m.state with
  | .editing_task _ =>
    ⟨true, "Exited editing mode",
      { m with state := .awaiting_command, edit_context := none }, db, none⟩
  | _ => ⟨false, "Not in editing mode", m, db, none⟩

/-- `_handle_discard_all`: clears staged operations and plan notes, resets
the pending-reference counter to 1, returns to `awaiting_command`. -/
def handle_discard_all (m : Machine) (db : DB) (_params : Attrs) : CmdResult :=
  ⟨true, "All operations discarded",
    { m with
      pending_ops := []
      plan_notes := []
      next_pending_ref := 1
      state := .awaiting_command
      edit_context := none }, db, none⟩

/-- `_handle_complete_session`: commit the batch; on success transition to
`completed`, on failure report the error and leave the machine untouched
(the store keeps whatever the already-applied operations did). -/
def handle_complete_session (m : Machine) (db : DB) (_params : Attrs) :
    CmdResult :=
  match commitOps m.scope db [] {} m.pending_ops with
  | (.ok summary, db1) =>
    ⟨true, "Session completed successfully", { m with state := .completed },
      db1, some summary⟩
  | (.error _, db1) =>
    ⟨false, "Failed to commit operations", m, db1, none⟩

/-- `StateMachine.handle_command`: terminal sessions reject everything;
known commands dispatch to their handler, unknown ones fail. -/
def handle_command (m : Machine) (db : DB) (command : String) (params : Attrs) :
    CmdResult :=
  if m.state == .completed then
    ⟨false, "Session already completed", m, db, none⟩
  else if command == "record_plan" then handle_record_plan m db params
  else if command == "select_task" then handle_select_task m db params
  else if command == "create_task" then handle_create_task m db params
  else if command == "update_task_fields" then
    handle_update_task_fields m db params
  else if command == "complete_task" then handle_complete_task m db params
  else if command == "delete_task" then handle_delete_task m db params
  else if command == "exit_editing" then handle_exit_editing m db params
  else if command == "discard_all" then handle_discard_all m db params
  else if command == "complete_session" then handle_complete_session m db params
  else ⟨false, "Unknown command: " ++ command, m, db, none⟩

/-- `StateMachine._get_available_commands`: a pure function of the current
state. -/
def get_available_commands (m : Machine) : List String :=
  match m.state with
  | .completed => []
  | .awaiting_command =>
    ["record_plan", "select_task", "create_task", "discard_all",
     "complete_session"]
  | .editing_task _ =>
    ["update_task_fields", "complete_task", "delete_task", "exit_editing",
     "discard_all", "complete_session"]

/-- Sessions reachable from a freshly initialized machine by any sequence of
commands, together with the database they acted on. -/
inductive Reaches : Machine → DB → Prop where
  | init (scope : Scope) (db : DB) : Reaches (initMachine scope) db
  | step (m : Machine) (db : DB) (command : String) (params : Attrs) :
      Reaches m db →
      Reaches (handle_command m db command params).machine
        (handle_command m db command params).db

/-- Spec-side nested-group membership edge: `c` is a direct member group of
`g` in the membership table. -/
def memberEdge (db : DB) (g c : Int) : Prop :=
  ∃ mm ∈ db.memberships, mm.group_id = g ∧ mm.member_group_id = some c

/-- The edge the `_get_all_member_groups` loop actually follows: a direct
member group whose id is truthy (Python skips a member id `0`, which the
database never assigns). -/
def codeEdge (db : DB) (g c : Int) : Prop :=
  c ∈ childGroupsOf db g ∧ c ≠ 0

/-- Distinct group ids occurring as nested members anywhere in the table:
the only ids the member-group traversal can descend into. -/
def memberTargets (db : DB) : List Int :=
  (db.memberships.filterMap (fun mm => mm.member_group_id)).dedup

/-- Number of member-target ids outside `visited`: the strictly decreasing
measure of the shared-visited traversal. -/
def avail (db : DB) (visited : List Int) : Nat :=
  ((memberTargets db).filter (fun t => decide (t ∉ visited))).length

/-- Structural invariant of reachable sessions: staged creates carry pending
targets; any staged operation targeting `pending:N` is accompanied by a
staged create for reference `N`; and an `editing_task (pending, N)` state
likewise has a matching staged create. -/
def SessionInv (m : Machine) : Prop :=
  (∀ op ∈ m.pending_ops, op.type = .create_task → op.target.1 = .pending) ∧
  (∀ N : Int, (∃ op ∈ m.pending_ops, op.target = ((.pending, N) : Target)) →
    ∃ op ∈ m.pending_ops,
      op.type = .create_task ∧ op.target = ((.pending, N) : Target)) ∧
  (∀ N : Int, m.state = .editing_task (.pending, N) →
    ∃ op ∈ m.pending_ops,
      op.type = .create_task ∧ op.target = ((.pending, N) : Target))

/-- The four commands legal only in `editing_task`. -/
def editingOnlyCommands : List String :=
  ["update_task_fields", "complete_task", "delete_task", "exit_editing"]

/-- Empty store fixture. -/
def dbEmpty : DB := ⟨[], [], [], 1⟩

/-- Fixture principal. -/
def scW : Scope := ⟨1⟩

/-- Store fixture with one task owned by user 1. -/
def dbOneTask : DB := ⟨[{ id := 1, user_id := 1, title := "t" }], [], [], 2⟩

/-- Store fixture with nested groups 1 ⊃ 2 ⊃ 3. -/
def dbGroups : DB :=
  ⟨[], [], [⟨1, none, some 2⟩, ⟨2, none, some 3⟩], 1⟩

/-- Store fixture where task 2 is blocked by the incomplete task 1. -/
def dbPrereq : DB :=
  ⟨[{ id := 1, user_id := 1, title := "a" },
    { id := 2, user_id := 1, title := "b" }], [⟨2, 1⟩], [], 3⟩

/-- Store fixture with a weekly-recurring task 1 due 2024-01-01, blocked by
the done task 9. -/
def dbRecur : DB :=
  ⟨[{ id := 1, user_id := 1, title := "r", due_date := some ⟨2024, 1, 1⟩,
      recurrence := "weekly" },
    { id := 9, user_id := 1, title := "p", status := "done" }],
   [⟨1, 9⟩], [], 10⟩

/-! Theorems.  First the graph theory for the nested-group traversal. -/

theorem mem_childGroupsOf {db : DB} {g c : Int} :
    c ∈ childGroupsOf db g ↔
      ∃ mm ∈ db.memberships, mm.group_id = g ∧ mm.member_group_id = some c := by
  unfold childGroupsOf
  simp only [List.mem_filterMap, List.mem_filter, Bool.and_eq_true, beq_iff_eq,
    Option.isSome_iff_exists]
  constructor
  · rintro ⟨mm, ⟨⟨hmem, hg, _⟩, hc⟩⟩
    exact ⟨mm, hmem, hg, hc⟩
  · rintro ⟨mm, hmem, hg, hc⟩
    exact ⟨mm, ⟨hmem, hg, ⟨c, hc⟩⟩, hc⟩

theorem child_subset_targets {db : DB} {g c : Int}
    (h : c ∈ childGroupsOf db g) : c ∈ memberTargets db := by
  obtain ⟨mm, hmem, _, hc⟩ := mem_childGroupsOf.mp h
  unfold memberTargets
  rw [List.mem_dedup, List.mem_filterMap]
  exact ⟨mm, hmem, hc⟩

theorem length_filter_imp_le {α : Type} (p q : α → Bool) :
    ∀ l : List α, (∀ a ∈ l, p a = true → q a = true) →
      (l.filter p).length ≤ (l.filter q).length := by
  intro l
  induction l with
  | nil => intro _; simp
  | cons a l ih =>
    intro h
    have hl := ih (fun b hb hp => h b (List.mem_cons_of_mem a hb) hp)
    by_cases hp : p a = true
    · have hq : q a = true := h a (List.mem_cons_self a l) hp
      simpa [List.filter_cons, hp, hq] using Nat.succ_le_succ hl
    · by_cases hq : q a = true
      · simp only [List.filter_cons, Bool.not_eq_true] at hp ⊢
        simp [hp, hq]
        exact Nat.le_succ_of_le hl
      · simp only [List.filter_cons, Bool.not_eq_true] at hp hq ⊢
        simpa [hp, hq] using hl

theorem length_filter_imp_lt {α : Type} (p q : α → Bool) :
    ∀ l : List α, (∀ b ∈ l, p b = true → q b = true) →
      ∀ a ∈ l, q a = true → p a = false →
        (l.filter p).length < (l.filter q).length := by
  intro l
  induction l with
  | nil => intro _ a ha; exact absurd ha (List.not_mem_nil a)
  | cons b l ih =>
    intro h a ha hqa hpa
    have himp := fun x hx hp => h x (List.mem_cons_of_mem b hx) hp
    rcases List.mem_cons.mp ha with rfl | ha
    · have hle := length_filter_imp_le p q l himp
      simp only [List.filter_cons, hpa, hqa]
      simpa using Nat.lt_succ_of_le hle
    · have hlt := ih himp a ha hqa hpa
      by_cases hpb : p b = true
      · have hqb : q b = true := h b (List.mem_cons_self b l) hpb
        simpa [List.filter_cons, hpb, hqb] using Nat.succ_lt_succ hlt
      · by_cases hqb : q b = true
        · simp only [List.filter_cons, Bool.not_eq_true] at hpb
          simp [hpb, hqb]
          exact Nat.lt_succ_of_lt hlt
        · simp only [List.filter_cons, Bool.not_eq_true] at hpb hqb
          simpa [hpb, hqb] using hlt

theorem avail_anti (db : DB) {v w : List Int} (h : v ⊆ w) :
    avail db w ≤ avail db v := by
  unfold avail
  apply length_filter_imp_le
  intro a _ ha
  simp only [decide_eq_true_eq] at ha ⊢
  exact fun hav => ha (h hav)

theorem avail_cons_lt (db : DB) {c : Int} {v : List Int}
    (hc : c ∈ memberTargets db) (hv : c ∉ v) :
    avail db (c :: v) < avail db v := by
  unfold avail
  refine length_filter_imp_lt _ _ _ ?_ c hc ?_ ?_
  · intro b _ hb
    simp only [decide_eq_true_eq, List.mem_cons] at hb ⊢
    exact fun hbv => hb (Or.inr hbv)
  · exact decide_eq_true hv
  · simp

theorem memberLoop_visited_mono (db : DB) (fuel : Nat)
    (hG : ∀ (g : Int) (v : List Int),
      v ⊆ (get_all_member_groups db fuel g v).2) :
    ∀ (cs ids v : List Int),
      v ⊆ (get_all_member_groups.memberLoop db fuel cs ids v).2 := by
  intro cs
  induction cs with
  | nil => intro ids v; simp [get_all_member_groups.memberLoop]
  | cons c cs ih =>
    intro ids v
    by_cases hg : c ≠ 0 ∧ c ∉ v
    · simp only [get_all_member_groups.memberLoop, if_pos hg]
      exact (hG c v).trans (ih _ _)
    · simp only [get_all_member_groups.memberLoop, if_neg hg]
      exact ih ids v

theorem gamg_visited_mono (db : DB) :
    ∀ (fuel : Nat) (g : Int) (v : List Int),
      v ⊆ (get_all_member_groups db fuel g v).2 := by
  intro fuel
  induction fuel with
  | zero => intro g v; simp [get_all_member_groups]
  | succ f ih =>
    intro g v
    by_cases hv : g ∈ v
    · simp [get_all_member_groups, hv]
    · simp only [get_all_member_groups, if_neg hv]
      exact (List.subset_cons_self g v).trans (memberLoop_visited_mono db f ih _ _ _)

theorem memberLoop_ids_mono (db : DB) (fuel : Nat) :
    ∀ (cs ids v : List Int),
      ids ⊆ (get_all_member_groups.memberLoop db fuel cs ids v).1 := by
  intro cs
  induction cs with
  | nil => intro ids v; simp [get_all_member_groups.memberLoop]
  | cons c cs ih =>
    intro ids v
    by_cases hg : c ≠ 0 ∧ c ∉ v
    · simp only [get_all_member_groups.memberLoop, if_pos hg]
      exact (List.subset_append_left _ _).trans (ih _ _)
    · simp only [get_all_member_groups.memberLoop, if_neg hg]
      exact ih ids v

theorem memberLoop_ids_visited (db : DB) (fuel : Nat)
    (hG : ∀ (g : Int) (v : List Int) (x : Int),
      x ∈ (get_all_member_groups db fuel g v).2 ↔
        x ∈ v ∨ x ∈ (get_all_member_groups db fuel g v).1) :
    ∀ (cs ids v : List Int), ids ⊆ v →
      ∀ x, x ∈ (get_all_member_groups.memberLoop db fuel cs ids v).2 ↔
        x ∈ v ∨ x ∈ (get_all_member_groups.memberLoop db fuel cs ids v).1 := by
  intro cs
  induction cs with
  | nil =>
    intro ids v hids x
    simp only [get_all_member_groups.memberLoop]
    exact ⟨fun h => Or.inl h, fun h => h.elim id (fun h2 => hids h2)⟩
  | cons c cs ih =>
    intro ids v hids x
    by_cases hg : c ≠ 0 ∧ c ∉ v
    · simp only [get_all_member_groups.memberLoop, if_pos hg]
      have hr1 : (get_all_member_groups db fuel c v).1 ⊆
          (get_all_member_groups db fuel c v).2 := by
        intro y hy
        exact (hG c v y).mpr (Or.inr hy)
      have hsub : ids ++ (get_all_member_groups db fuel c v).1 ⊆
          (get_all_member_groups db fuel c v).2 := by
        intro y hy
        rcases List.mem_append.mp hy with hy | hy
        · exact gamg_visited_mono db fuel c v (hids hy)
        · exact hr1 hy
      rw [ih _ _ hsub x]
      have hloop1 := memberLoop_ids_mono db fuel cs
        (ids ++ (get_all_member_groups db fuel c v).1)
        (get_all_member_groups db fuel c v).2
      constructor
      · rintro (hy | hy)
        · rcases (hG c v x).mp hy with hy | hy
          · exact Or.inl hy
          · exact Or.inr (hloop1 (List.mem_append_right ids hy))
        · exact Or.inr hy
      · rintro (hy | hy)
        · exact Or.inl ((hG c v x).mpr (Or.inl hy))
        · exact Or.inr hy
    · simp only [get_all_member_groups.memberLoop, if_neg hg]
      exact ih ids v hids x

theorem gamg_ids_visited (db : DB) :
    ∀ (fuel : Nat) (g : Int) (v : List Int) (x : Int),
      x ∈ (get_all_member_groups db fuel g v).2 ↔
        x ∈ v ∨ x ∈ (get_all_member_groups db fuel g v).1 := by
  intro fuel
  induction fuel with
  | zero => intro g v x; simp [get_all_member_groups]
  | succ f ih =>
    intro g v x
    by_cases hv : g ∈ v
    · simp [get_all_member_groups, hv]
    · simp only [get_all_member_groups, if_neg hv]
      rw [memberLoop_ids_visited db f ih _ _ _
        (by intro y hy; simpa using Or.inl (List.mem_singleton.mp hy)) x]
      have hgin : g ∈
          (get_all_member_groups.memberLoop db f (childGroupsOf db g) [g]
            (g :: v)).1 :=
        memberLoop_ids_mono db f _ _ _ (List.mem_singleton_self g)
      constructor
      · rintro (hy | hy)
        · rcases List.mem_cons.mp hy with rfl | hy
          · exact Or.inr hgin
          · exact Or.inl hy
        · exact Or.inr hy
      · rintro (hy | hy)
        · exact Or.inl (List.mem_cons_of_mem g hy)
        · exact Or.inr hy

theorem memberLoop_sound (db : DB) (fuel : Nat)
    (hG : ∀ (g : Int) (v : List Int) (x : Int),
      x ∈ (get_all_member_groups db fuel g v).1 →
        Relation.ReflTransGen (codeEdge db) g x) :
    ∀ (g : Int) (cs ids v : List Int),
      (∀ c ∈ cs, c ∈ childGroupsOf db g) →
      (∀ y ∈ ids, Relation.ReflTransGen (codeEdge db) g y) →
      ∀ x ∈ (get_all_member_groups.memberLoop db fuel cs ids v).1,
        Relation.ReflTransGen (codeEdge db) g x := by
  intro g cs
  induction cs with
  | nil =>
    intro ids v _ hids x hx
    simp only [get_all_member_groups.memberLoop] at hx
    exact hids x hx
  | cons c cs ih =>
    intro ids v hcs hids x hx
    have hcs2 := fun b hb => hcs b (List.mem_cons_of_mem c hb)
    by_cases hg : c ≠ 0 ∧ c ∉ v
    · simp only [get_all_member_groups.memberLoop, if_pos hg] at hx
      refine ih _ _ hcs2 ?_ x hx
      intro y hy
      rcases List.mem_append.mp hy with hy | hy
      · exact hids y hy
      · refine Relation.ReflTransGen.trans
          (Relation.ReflTransGen.single ?_) (hG c v y hy)
        exact ⟨hcs c (List.mem_cons_self c cs), hg.1⟩
    · simp only [get_all_member_groups.memberLoop, if_neg hg] at hx
      exact ih _ _ hcs2 hids x hx

theorem gamg_sound (db : DB) :
    ∀ (fuel : Nat) (g : Int) (v : List Int) (x : Int),
      x ∈ (get_all_member_groups db fuel g v).1 →
        Relation.ReflTransGen (codeEdge db) g x := by
  intro fuel
  induction fuel with
  | zero => intro g v x hx; simp [get_all_member_groups] at hx
  | succ f ih =>
    intro g v x hx
    by_cases hv : g ∈ v
    · simp [get_all_member_groups, hv] at hx
    · simp only [get_all_member_groups, if_neg hv] at hx
      refine memberLoop_sound db f ih g _ _ _ (fun c hc => hc) ?_ x hx
      intro y hy
      rcases List.mem_singleton.mp hy with rfl
      exact Relation.ReflTransGen.refl

theorem memberLoop_closed (db : DB) (fuel : Nat)
    (hG : ∀ (g : Int) (v : List Int),
      (g ∈ v ∨ avail db (g :: v) < fuel) →
      g ∈ (get_all_member_groups db fuel g v).2 ∧
      ∀ x ∈ (get_all_member_groups db fuel g v).2, x ∉ v →
        ∀ c, codeEdge db x c → c ∈ (get_all_member_groups db fuel g v).2) :
    ∀ (cs ids v : List Int), avail db v ≤ fuel →
      (∀ c ∈ cs, c ∈ memberTargets db) →
      (∀ x ∈ (get_all_member_groups.memberLoop db fuel cs ids v).2, x ∉ v →
        ∀ c, codeEdge db x c →
          c ∈ (get_all_member_groups.memberLoop db fuel cs ids v).2) ∧
      (∀ c ∈ cs, c ≠ 0 →
        c ∈ (get_all_member_groups.memberLoop db fuel cs ids v).2) := by
  intro cs
  induction cs with
  | nil =>
    intro ids v _ _
    constructor
    · intro x hx hxv c hc
      simp only [get_all_member_groups.memberLoop] at hx ⊢
      exact absurd hx hxv
    · intro c hc; exact absurd hc (List.not_mem_nil c)
  | cons c cs ih =>
    intro ids v hfuel hcs
    have hcs2 := fun b hb => hcs b (List.mem_cons_of_mem c hb)
    by_cases hg : c ≠ 0 ∧ c ∉ v
    · have hinv : c ∈ v ∨ avail db (c :: v) < fuel :=
        Or.inr (Nat.lt_of_lt_of_le
          (avail_cons_lt db (hcs c (List.mem_cons_self c cs)) hg.2) hfuel)
      obtain ⟨hroot, hclosed⟩ := hG c v hinv
      have hvr : v ⊆ (get_all_member_groups db fuel c v).2 :=
        gamg_visited_mono db fuel c v
      have hfuel2 : avail db (get_all_member_groups db fuel c v).2 ≤ fuel :=
        le_trans (avail_anti db hvr) hfuel
      obtain ⟨iha, ihb⟩ := ih (ids ++ (get_all_member_groups db fuel c v).1)
        (get_all_member_groups db fuel c v).2 hfuel2 hcs2
      have hrL : (get_all_member_groups db fuel c v).2 ⊆
          (get_all_member_groups.memberLoop db fuel cs
            (ids ++ (get_all_member_groups db fuel c v).1)
            (get_all_member_groups db fuel c v).2).2 :=
        memberLoop_visited_mono db fuel (fun g2 v2 => gamg_visited_mono db fuel g2 v2) _ _ _
      constructor
      · intro x hx hxv c2 hc2
        simp only [get_all_member_groups.memberLoop, if_pos hg] at hx ⊢
        by_cases hxr : x ∈ (get_all_member_groups db fuel c v).2
        · exact hrL (hclosed x hxr hxv c2 hc2)
        · exact iha x hx hxr c2 hc2
      · intro b hb hb0
        simp only [get_all_member_groups.memberLoop, if_pos hg]
        rcases List.mem_cons.mp hb with rfl | hb
        · exact hrL hroot
        · exact ihb b hb hb0
    · obtain ⟨iha, ihb⟩ := ih ids v hfuel hcs2
      constructor
      · intro x hx hxv c2 hc2
        simp only [get_all_member_groups.memberLoop, if_neg hg] at hx ⊢
        exact iha x hx hxv c2 hc2
      · intro b hb hb0
        simp only [get_all_member_groups.memberLoop, if_neg hg]
        rcases List.mem_cons.mp hb with rfl | hb
        · have hbv : b ∈ v := by
            by_contra hbv
            exact hg ⟨hb0, hbv⟩
          exact memberLoop_visited_mono db fuel
            (fun g2 v2 => gamg_visited_mono db fuel g2 v2) cs ids v hbv
        · exact ihb b hb hb0

theorem gamg_closed (db : DB) :
    ∀ (fuel : Nat) (g : Int) (v : List Int),
      (g ∈ v ∨ avail db (g :: v) < fuel) →
      g ∈ (get_all_member_groups db fuel g v).2 ∧
      ∀ x ∈ (get_all_member_groups db fuel g v).2, x ∉ v →
        ∀ c, codeEdge db x c → c ∈ (get_all_member_groups db fuel g v).2 := by
  intro fuel
  induction fuel with
  | zero =>
    intro g v hinv
    have hv : g ∈ v := by
      rcases hinv with hv | hlt
      · exact hv
      · exact absurd hlt (Nat.not_lt_zero _)
    refine ⟨by simpa [get_all_member_groups] using hv, ?_⟩
    intro x hx hxv
    simp only [get_all_member_groups] at hx
    exact absurd hx hxv
  | succ f ih =>
    intro g v hinv
    by_cases hv : g ∈ v
    · refine ⟨by simp [get_all_member_groups, hv], ?_⟩
      intro x hx hxv
      simp only [get_all_member_groups, if_pos hv] at hx
      exact absurd hx hxv
    · have hlt : avail db (g :: v) ≤ f := by
        rcases hinv with hv2 | hlt
        · exact absurd hv2 hv
        · exact Nat.lt_succ_iff.mp hlt
      obtain ⟨iha, ihb⟩ := memberLoop_closed db f ih (childGroupsOf db g) [g]
        (g :: v) hlt (fun c hc => child_subset_targets hc)
      constructor
      · simp only [get_all_member_groups, if_neg hv]
        exact memberLoop_visited_mono db f
          (fun g2 v2 => gamg_visited_mono db f g2 v2) _ _ _
          (List.mem_cons_self g v)
      · intro x hx hxv c hc
        simp only [get_all_member_groups, if_neg hv] at hx ⊢
        by_cases hxg : x = g
        · subst hxg
          exact ihb c (hc.1) hc.2
        · have hxgv : x ∉ g :: v := by
            intro hmem
            rcases List.mem_cons.mp hmem with rfl | hmem
            · exact hxg rfl
            · exact hxv hmem
          exact iha x hx hxgv c hc

theorem avail_le_memberships (db : DB) (v : List Int) :
    avail db v ≤ db.memberships.length := by
  unfold avail memberTargets
  calc ((db.memberships.filterMap (fun mm => mm.member_group_id)).dedup.filter
          (fun t => decide (t ∉ v))).length
      ≤ (db.memberships.filterMap (fun mm => mm.member_group_id)).dedup.length :=
        List.length_filter_le _ _
    _ ≤ (db.memberships.filterMap (fun mm => mm.member_group_id)).length :=
        (List.dedup_sublist _).length_le
    _ ≤ db.memberships.length := List.length_filterMap_le _ _

theorem codeEdge_iff_memberEdge {db : DB}
    (Hz : ∀ mm ∈ db.memberships, mm.member_group_id ≠ some 0) (g c : Int) :
    codeEdge db g c ↔ memberEdge db g c := by
  constructor
  · rintro ⟨hc, _⟩
    exact mem_childGroupsOf.mp hc
  · intro h
    rcases h with ⟨mm, hmem, hg2, hc⟩
    refine ⟨mem_childGroupsOf.mpr ⟨mm, hmem, hg2, hc⟩, ?_⟩
    intro h0
    exact Hz mm hmem (h0 ▸ hc)

theorem gamg_reaches (db : DB)
    (Hz : ∀ mm ∈ db.memberships, mm.member_group_id ≠ some 0)
    (fuel : Nat) (g : Int) (hfuel : avail db (g :: []) < fuel) (x : Int) :
    x ∈ (get_all_member_groups db fuel g []).1 ↔
      Relation.ReflTransGen (memberEdge db) g x := by
  constructor
  · intro hx
    exact Relation.ReflTransGen.mono
      (fun a b h => (codeEdge_iff_memberEdge Hz a b).mp h)
      (gamg_sound db fuel g [] x hx)
  · intro hx
    have hcode : Relation.ReflTransGen (codeEdge db) g x :=
      Relation.ReflTransGen.mono
        (fun a b h => (codeEdge_iff_memberEdge Hz a b).mpr h) hx
    obtain ⟨hroot, hclosed⟩ := gamg_closed db fuel g [] (Or.inr hfuel)
    have hW : ∀ y, Relation.ReflTransGen (codeEdge db) g y →
        y ∈ (get_all_member_groups db fuel g []).2 := by
      intro y hy
      induction hy with
      | refl => exact hroot
      | tail hyz e ih =>
        exact hclosed _ ih (List.not_mem_nil _) _ e
    rcases (gamg_ids_visited db fuel g [] x).mp (hW x hcode) with hx2 | hx2
    · exact absurd hx2 (List.not_mem_nil x)
    · exact hx2

/-- C9: `would_create_cycle(A, B)` (`check_circular_group_reference` in
`app/core/scope.py`) decides exactly whether `A` lies in `B`'s full
descendant closure over nested-group membership edges — in particular it is
`true` for the self-comparison `(A, A)` — and the visited-set traversal is
stable under any sufficiently large recursion bound (it terminates with the
same finite answer on every membership graph, cyclic ones included).  The
hypothesis records that the database never assigns group id 0 (Python
truthiness makes the loop skip a member id 0). -/
theorem c9_would_create_cycle (db : DB)
    (Hz : ∀ mm ∈ db.memberships, mm.member_group_id ≠ some 0) (A B : Int) :
    (check_circular_group_reference db A B = true ↔
      Relation.ReflTransGen (memberEdge db) B A) ∧
    check_circular_group_reference db A A = true ∧
    (∀ fuel, membershipFuel db ≤ fuel →
      ((A ∈ (get_all_member_groups db fuel B []).1) ↔
        check_circular_group_reference db A B = true)) := by
  have hbound : ∀ g : Int, ∀ fuel, membershipFuel db ≤ fuel →
      avail db (g :: []) < fuel := by
    intro g fuel hf
    have h1 : avail db (g :: []) < membershipFuel db :=
      Nat.lt_succ_of_le (avail_le_memberships db _)
    exact Nat.lt_of_lt_of_le h1 hf
  have hmain : ∀ X Y : Int, check_circular_group_reference db X Y = true ↔
      Relation.ReflTransGen (memberEdge db) Y X := by
    intro X Y
    unfold check_circular_group_reference
    rw [decide_eq_true_eq]
    exact gamg_reaches db Hz (membershipFuel db) Y
      (hbound Y (membershipFuel db) (le_refl _)) X
  refine ⟨hmain A B, ?_, ?_⟩
  · exact (hmain A A).mpr Relation.ReflTransGen.refl
  · intro fuel hf
    rw [hmain A B]
    exact gamg_reaches db Hz fuel B (hbound B fuel hf) A

/-- Witness for C9 at the two-membership fixture 1 ⊃ 2 ⊃ 3: the hypothesis
holds by computation and the self-comparison conjunct is discharged at
`A = B = 5`. -/
theorem c9_would_create_cycle_witness :
    check_circular_group_reference dbGroups 5 5 = true :=
  (c9_would_create_cycle dbGroups (by decide) 5 5).2.1

/-! Session invariant: in every reachable session, a staged operation
targeting a pending reference is always accompanied by a staged create
carrying that reference. -/

theorem sessionInv_init (scope : Scope) : SessionInv (initMachine scope) := by
  refine ⟨?_, ?_, ?_⟩
  · intro op hop; exact absurd hop (List.not_mem_nil op)
  · rintro N ⟨op, hop, _⟩; exact absurd hop (List.not_mem_nil op)
  · intro N hN; exact absurd hN (by simp [initMachine])

theorem sessionInv_append_create (m : Machine) (ref : Int) (attrs : Attrs)
    (h : SessionInv m) :
    SessionInv { m with
      pending_ops := m.pending_ops ++
        [{ type := .create_task, target := (.pending, ref), attrs := attrs }]
      next_pending_ref := m.next_pending_ref + 1 } := by
  obtain ⟨h1, h2, h3⟩ := h
  refine ⟨?_, ?_, ?_⟩
  · intro op hop hty
    rcases List.mem_append.mp hop with hop | hop
    · exact h1 op hop hty
    · rcases List.mem_singleton.mp hop with rfl
      rfl
  · rintro N ⟨op, hop, htgt⟩
    rcases List.mem_append.mp hop with hop | hop
    · obtain ⟨op2, hop2, hty2, htgt2⟩ := h2 N ⟨op, hop, htgt⟩
      exact ⟨op2, List.mem_append_left _ hop2, hty2, htgt2⟩
    · rcases List.mem_singleton.mp hop with rfl
      refine ⟨_, List.mem_append_right _ (List.mem_singleton_self _), rfl, ?_⟩
      exact htgt
  · intro N hN
    obtain ⟨op2, hop2, hty2, htgt2⟩ := h3 N hN
    exact ⟨op2, List.mem_append_left _ hop2, hty2, htgt2⟩

theorem sessionInv_stage_editing (m : Machine) (ty : OpType) (target : Target)
    (attrs : Attrs) (hty : ty ≠ .create_task)
    (hstate : m.state = .editing_task target) (h : SessionInv m) :
    SessionInv { m with
      pending_ops := m.pending_ops ++
        [{ type := ty, target := target, attrs := attrs }] } := by
  obtain ⟨h1, h2, h3⟩ := h
  refine ⟨?_, ?_, ?_⟩
  · intro op hop hty2
    rcases List.mem_append.mp hop with hop | hop
    · exact h1 op hop hty2
    · rcases List.mem_singleton.mp hop with rfl
      exact absurd hty2 hty
  · rintro N ⟨op, hop, htgt⟩
    rcases List.mem_append.mp hop with hop | hop
    · obtain ⟨op2, hop2, hty2, htgt2⟩ := h2 N ⟨op, hop, htgt⟩
      exact ⟨op2, List.mem_append_left _ hop2, hty2, htgt2⟩
    · rcases List.mem_singleton.mp hop with rfl
      have htarget : target = ((.pending, N) : Target) := htgt
      obtain ⟨op2, hop2, hty2, htgt2⟩ := h3 N (htarget ▸ hstate)
      exact ⟨op2, List.mem_append_left _ hop2, hty2, htgt2⟩
  · intro N hN
    obtain ⟨op2, hop2, hty2, htgt2⟩ := h3 N hN
    exact ⟨op2, List.mem_append_left _ hop2, hty2, htgt2⟩

theorem sessionInv_handle_command (m : Machine) (db : DB) (command : String)
    (params : Attrs) (h : SessionInv m) :
    SessionInv (handle_command m db command params).machine := by
  obtain ⟨h1, h2, h3⟩ := h
  unfold handle_command
  split
  · exact ⟨h1, h2, h3⟩
  split
  · -- record_plan
    unfold handle_record_plan
    dsimp only
    split
    · exact ⟨h1, h2, h3⟩
    · exact ⟨h1, h2, h3⟩
  split
  · -- select_task
    unfold handle_select_task
    dsimp only
    split
    · exact ⟨h1, h2, h3⟩
    split
    · exact ⟨h1, h2, h3⟩
    split
    · -- string target
      split
      · exact ⟨h1, h2, h3⟩
      split
      · exact ⟨h1, h2, h3⟩
      split
      · -- existing target
        split
        · exact ⟨h1, h2, h3⟩
        · refine ⟨h1, h2, ?_⟩
          intro N hN
          simp only at hN
          cases hN
      · -- pending target
        split
        · exact ⟨h1, h2, h3⟩
        next n op hfind =>
          refine ⟨h1, h2, ?_⟩
          intro N hN
          simp only [MState.editing_task.injEq] at hN
          have hop := List.mem_of_find?_eq_some hfind
          have hp := List.find?_some hfind
          rw [beq_iff_eq] at hp
          refine h2 N ⟨op, hop, ?_⟩
          rw [hp, ← hN]
    · exact ⟨h1, h2, h3⟩
  split
  · -- create_task
    unfold handle_create_task
    dsimp only
    split
    · exact ⟨h1, h2, h3⟩
    · exact sessionInv_append_create m m.next_pending_ref params ⟨h1, h2, h3⟩
  split
  · -- update_task_fields
    unfold handle_update_task_fields stageEditingOp
    split
    next target hstate =>
      exact sessionInv_stage_editing m .update_task target params
        (by intro hc; cases hc) hstate ⟨h1, h2, h3⟩
    · exact ⟨h1, h2, h3⟩
  split
  · -- complete_task
    unfold handle_complete_task stageEditingOp
    split
    next target hstate =>
      exact sessionInv_stage_editing m .complete_task target []
        (by intro hc; cases hc) hstate ⟨h1, h2, h3⟩
    · exact ⟨h1, h2, h3⟩
  split
  · -- delete_task
    unfold handle_delete_task stageEditingOp
    split
    next target hstate =>
      exact sessionInv_stage_editing m .delete_task target []
        (by intro hc; cases hc) hstate ⟨h1, h2, h3⟩
    · exact ⟨h1, h2, h3⟩
  split
  · -- exit_editing
    unfold handle_exit_editing
    split
    · refine ⟨h1, h2, ?_⟩
      intro N hN
      simp only at hN
      cases hN
    · exact ⟨h1, h2, h3⟩
  split
  · -- discard_all
    unfold handle_discard_all
    refine ⟨?_, ?_, ?_⟩
    · intro op hop; exact absurd hop (List.not_mem_nil op)
    · rintro N ⟨op, hop, _⟩; exact absurd hop (List.not_mem_nil op)
    · intro N hN
      simp only at hN
      cases hN
  split
  · -- complete_session
    unfold handle_complete_session
    split
    next summary db1 heq =>
      refine ⟨h1, h2, ?_⟩
      intro N hN
      simp only at hN
      cases hN
    · exact ⟨h1, h2, h3⟩
  · exact ⟨h1, h2, h3⟩

theorem reaches_sessionInv {m : Machine} {db : DB} (h : Reaches m db) :
    SessionInv m := by
  induction h with
  | init scope db2 => exact sessionInv_init scope
  | step m2 db2 command params _ ih =>
    exact sessionInv_handle_command m2 db2 command params ih

/-- C4: in every reachable session that is awaiting a command, `select_task`
on a target string that parses as `pending:N` succeeds exactly when some
staged create operation currently carries pending reference `N` (by the
session invariant, the handler's lookup over all staged operations agrees
with the create-only reading); on success the machine transitions to
`editing_task` with that pending target, and on failure it is unchanged. -/
theorem c4_select_pending_target (m : Machine) (db : DB) (h : Reaches m db)
    (hstate : m.state = .awaiting_command) (s : String) (N : Int)
    (hparse : parseTarget s = some ("pending", N)) :
    ((handle_command m db "select_task" [("target", .vs s)]).ok = true ↔
      ∃ op ∈ m.pending_ops,
        op.type = .create_task ∧ op.target = ((.pending, N) : Target)) ∧
    ((handle_command m db "select_task" [("target", .vs s)]).ok = true →
      (handle_command m db "select_task" [("target", .vs s)]).machine.state =
        .editing_task (.pending, N)) ∧
    ((handle_command m db "select_task" [("target", .vs s)]).ok = false →
      (handle_command m db "select_task" [("target", .vs s)]).machine = m) := by
  have hnc : m.state ≠ .completed := by rw [hstate]; intro hc; cases hc
  have hdisp : handle_command m db "select_task" [("target", .vs s)] =
      handle_select_task m db [("target", .vs s)] := by
    unfold handle_command
    simp [hnc]
  have hs0 : s ≠ "" := by
    intro hs
    have hnone : parseTarget "" = none := by decide
    rw [hs, hnone] at hparse
    cases hparse
  have hinv := reaches_sessionInv h
  rw [hdisp]
  unfold handle_select_task
  rw [if_neg (by simp [hstate])]
  have hget : pyGet [("target", Val.vs s)] "target" = .vs s := by
    simp [pyGet, dictFind]
  rw [hget]
  dsimp only
  rw [if_neg (by simp [truthy, hs0]), hparse]
  dsimp only
  rw [if_neg (by decide), if_neg (by decide)]
  rcases hfind : m.pending_ops.find?
      (fun op => op.target == ((.pending, N) : Target)) with _ | op
  all_goals simp only [hfind]
  · refine ⟨?_, ?_, ?_⟩
    · constructor
      · intro hok; cases hok
      · rintro ⟨op, hop, _, htgt⟩
        have hno := List.find?_eq_none.mp hfind op hop
        rw [htgt] at hno
        simp at hno
    · intro hok; cases hok
    · intro _; trivial
  · refine ⟨?_, ?_, ?_⟩
    · constructor
      · intro _
        have hop := List.mem_of_find?_eq_some hfind
        have hp := List.find?_some hfind
        rw [beq_iff_eq] at hp
        exact hinv.2.1 N ⟨op, hop, hp⟩
      · intro _; trivial
    · intro _; trivial
    · intro hok; cases hok

/-- Witness for C4: after staging one create in a fresh session, selecting
`pending:1` succeeds. -/
theorem c4_select_pending_target_witness :
    (handle_command
      (handle_command (initMachine scW) dbEmpty "create_task"
        [("title", .vs "x")]).machine
      (handle_command (initMachine scW) dbEmpty "create_task"
        [("title", .vs "x")]).db
      "select_task" [("target", .vs "pending:1")]).ok = true := by
  refine (c4_select_pending_target _ _
    (Reaches.step (initMachine scW) dbEmpty "create_task" [("title", .vs "x")]
      (Reaches.init scW dbEmpty))
    (by decide) "pending:1" 1 (by decide)).1.mpr ?_
  decide

/-! Dispatch and handler-shape helper lemmas. -/

theorem handle_command_create (m : Machine) (db : DB) (params : Attrs)
    (hnc : m.state ≠ .completed)
    (htitle : truthy (pyGet params "title") = true) :
    handle_command m db "create_task" params =
      ⟨true, "Task creation staged with pending_ref " ++
          toString m.next_pending_ref,
        { m with
          pending_ops := m.pending_ops ++
            [{ type := .create_task, target := (.pending, m.next_pending_ref),
               attrs := params }]
          next_pending_ref := m.next_pending_ref + 1 }, db, none⟩ := by
  unfold handle_command handle_create_task
  simp [hnc, htitle]

theorem handle_command_update_fields (m : Machine) (db : DB) (params : Attrs)
    (target : Target) (hstate : m.state = .editing_task target) :
    handle_command m db "update_task_fields" params =
      ⟨true, "Update staged",
        { m with
          pending_ops := m.pending_ops ++
            [{ type := .update_task, target := target, attrs := params }] },
        db, none⟩ := by
  have hnc : m.state ≠ .completed := by rw [hstate]; intro hc; cases hc
  unfold handle_command handle_update_task_fields stageEditingOp
  simp [hnc]
  rw [hstate]

theorem handle_command_session (m : Machine) (db : DB) (params : Attrs)
    (hnc : m.state ≠ .completed) :
    handle_command m db "complete_session" params =
      handle_complete_session m db params := by
  unfold handle_command
  simp [hnc]

/-- C3 counterexample: the claim forbids reuse of a pending reference after
a `discard_all` in the same session, but a fresh session that stages a
create (reference 1), discards, and stages another create assigns
reference 1 twice. -/
theorem c3_counterexample :
    (handle_command (initMachine scW) dbEmpty "create_task"
        [("title", .vs "x")]).machine.pending_ops.map
      (fun op => op.target.2) = [1] ∧
    (handle_command
      (handle_command
        (handle_command (initMachine scW) dbEmpty "create_task"
          [("title", .vs "x")]).machine
        dbEmpty "discard_all" []).machine
      dbEmpty "create_task" [("title", .vs "y")]).machine.pending_ops.map
      (fun op => op.target.2) = [1] := by
  decide

/-- C3 amended: pending references are assigned strictly increasing values
starting at 1 within a session — each successful `create_task` stages its
operation under the current counter value and increments the counter, and
no command other than `create_task` and `discard_all` changes the counter —
but `discard_all` resets the counter to 1 within the same session, so
references are reused after a discard (only between two discards is reuse
impossible). -/
theorem c3_pending_refs (scope : Scope) :
    (initMachine scope).next_pending_ref = 1 ∧
    (∀ (m : Machine) (db : DB) (params : Attrs), m.state ≠ .completed →
      truthy (pyGet params "title") = true →
      (handle_command m db "create_task" params).machine.pending_ops =
        m.pending_ops ++
          [{ type := .create_task, target := (.pending, m.next_pending_ref),
             attrs := params }] ∧
      (handle_command m db "create_task" params).machine.next_pending_ref =
        m.next_pending_ref + 1) ∧
    (∀ (m : Machine) (db : DB) (params : Attrs) (command : String),
      command ∈ ["record_plan", "select_task", "update_task_fields",
        "complete_task", "delete_task", "exit_editing", "complete_session"] →
      (handle_command m db command params).machine.next_pending_ref =
        m.next_pending_ref) ∧
    (∀ (m : Machine) (db : DB) (params : Attrs), m.state ≠ .completed →
      (handle_command m db "discard_all" params).machine.next_pending_ref
        = 1) := by
  refine ⟨rfl, ?_, ?_, ?_⟩
  · intro m db params hnc htitle
    rw [handle_command_create m db params hnc htitle]
    exact ⟨rfl, rfl⟩
  · intro m db params command hcmd
    by_cases hc : m.state = .completed
    · unfold handle_command
      simp [hc]
    fin_cases hcmd
    · unfold handle_command handle_record_plan
      simp [hc]
      repeat' split
      all_goals rfl
    · unfold handle_command handle_select_task
      simp [hc]
      repeat' split
      all_goals rfl
    · unfold handle_command handle_update_task_fields stageEditingOp
      simp [hc]
      repeat' split
      all_goals rfl
    · unfold handle_command handle_complete_task stageEditingOp
      simp [hc]
      repeat' split
      all_goals rfl
    · unfold handle_command handle_delete_task stageEditingOp
      simp [hc]
      repeat' split
      all_goals rfl
    · unfold handle_command handle_exit_editing
      simp [hc]
      repeat' split
      all_goals rfl
    · unfold handle_command handle_complete_session
      simp [hc]
      repeat' split
      all_goals rfl
  · intro m db params hnc
    unfold handle_command handle_discard_all
    simp [hnc]

/-- Witness for C3 (amended): one create in a fresh session bumps the
counter from 1 to 2. -/
theorem c3_pending_refs_witness :
    (handle_command (initMachine scW) dbEmpty "create_task"
        [("title", .vs "x")]).machine.next_pending_ref =
      (initMachine scW).next_pending_ref + 1 :=
  ((c3_pending_refs scW).2.1 (initMachine scW) dbEmpty
    [("title", .vs "x")] (by decide) (by decide)).2

/-- C6 counterexample: the claim's allowed list for `awaiting_command` omits
`select_task`, but in a session that staged a create, `select_task` (a
command other than `record_plan`, `create_task`, `discard_all` and
`complete_session`) succeeds and changes the state rather than failing with
a state error. -/
theorem c6_counterexample :
    (handle_command
      (handle_command (initMachine scW) dbEmpty "create_task"
        [("title", .vs "x")]).machine
      dbEmpty "select_task" [("target", .vs "pending:1")]).ok = true ∧
    (handle_command
      (handle_command (initMachine scW) dbEmpty "create_task"
        [("title", .vs "x")]).machine
      dbEmpty "select_task" [("target", .vs "pending:1")]).machine.state =
      .editing_task (.pending, 1) := by
  decide

/-- C6 amended: of the nine commands, exactly the four `editing_task`-only
ones (`update_task_fields`, `complete_task`, `delete_task`, `exit_editing`)
are rejected in `awaiting_command` — `select_task` is legal there — and
symmetrically those four fail with a state error (failed result, machine
and store unchanged, nothing staged) whenever the machine is not in an
`editing_task` state. -/
theorem c6_state_errors (m : Machine) (db : DB) (command : String)
    (params : Attrs) (hcmd : command ∈ editingOnlyCommands)
    (hstate : ∀ target : Target, m.state ≠ .editing_task target) :
    (handle_command m db command params).ok = false ∧
    (handle_command m db command params).machine = m ∧
    (handle_command m db command params).db = db := by
  by_cases hc : m.state = .completed
  · unfold handle_command
    simp [hc]
  have hms : m.state = .awaiting_command := by
    cases hm : m.state with
    | awaiting_command => rfl
    | completed => exact absurd hm hc
    | editing_task t => exact absurd hm (hstate t)
  fin_cases hcmd
  · unfold handle_command handle_update_task_fields stageEditingOp
    simp [hc, hms]
  · unfold handle_command handle_complete_task stageEditingOp
    simp [hc, hms]
  · unfold handle_command handle_delete_task stageEditingOp
    simp [hc, hms]
  · unfold handle_command handle_exit_editing
    simp [hc, hms]

/-- Witness for C6 (amended): `update_task_fields` in a fresh
(`awaiting_command`) session fails. -/
theorem c6_state_errors_witness :
    (handle_command (initMachine scW) dbEmpty "update_task_fields"
      [("title", .vs "x")]).ok = false :=
  (c6_state_errors (initMachine scW) dbEmpty "update_task_fields"
    [("title", .vs "x")] (by decide)
    (fun target h => by cases h)).1

theorem pmapFind_eq_none_iff (pmap : PMap) (N : Int) :
    pmapFind pmap N = none ↔ ∀ p ∈ pmap, p.1 ≠ N := by
  unfold pmapFind
  rw [Option.map_eq_none', List.find?_eq_none]
  constructor
  · intro h p hp
    have hb := h p hp
    simpa using hb
  · intro h p hp
    simpa using h p hp

theorem pmapFind_set_none (pmap : PMap) (r id N : Int) (hr : r ≠ N)
    (h : pmapFind pmap N = none) : pmapFind (pmapSet pmap r id) N = none := by
  have hall := (pmapFind_eq_none_iff pmap N).mp h
  rw [pmapFind_eq_none_iff]
  intro p hp
  unfold pmapSet at hp
  split at hp
  · obtain ⟨q, hq, hfq⟩ := List.mem_map.mp hp
    by_cases hqr : (q.1 == r) = true
    · rw [if_pos hqr] at hfq
      rw [← hfq]
      exact hr
    · rw [if_neg hqr] at hfq
      rw [← hfq]
      exact hall q hq
  · rcases List.mem_append.mp hp with hp | hp
    · exact hall p hp
    · rcases List.mem_singleton.mp hp with rfl
      exact hr

theorem commitOps_unmapped_fails (scope : Scope) :
    ∀ (ops : List PendingOperation) (db : DB) (pmap : PMap)
      (summary : Summary) (N : Int) (i : Nat) (hi : i < ops.length),
      pmapFind pmap N = none →
      (∀ op ∈ ops, op.type = .create_task → op.target.1 = .pending) →
      (ops.get ⟨i, hi⟩).type ≠ .create_task →
      (ops.get ⟨i, hi⟩).target = ((.pending, N) : Target) →
      (∀ (j : Nat) (hj : j < ops.length), j < i →
        ¬((ops.get ⟨j, hj⟩).type = .create_task ∧
          (ops.get ⟨j, hj⟩).target = ((.pending, N) : Target))) →
      ∃ e, (commitOps scope db pmap summary ops).1 = .error e := by
  intro ops
  induction ops with
  | nil =>
    intro db pmap summary N i hi
    exact absurd hi (Nat.not_lt_zero i)
  | cons op rest ih =>
    intro db pmap summary N i hi hpm hwf hty htgt hprev
    cases i with
    | zero =>
      have htgt0 : op.target = ((.pending, N) : Target) := htgt
      have hty0 : op.type ≠ .create_task := hty
      have hres : resolve_target op.target pmap =
          .error (.valueError
            ("Pending task " ++ toString N ++ " not yet created")) := by
        unfold resolve_target
        rw [htgt0]
        dsimp only
        rw [hpm]
      cases hop : op.type with
      | create_task => exact absurd hop hty0
      | update_task =>
        refine ⟨.valueError ("Pending task " ++ toString N ++
          " not yet created"), ?_⟩
        simp only [commitOps, hop, hres]
      | complete_task =>
        refine ⟨.valueError ("Pending task " ++ toString N ++
          " not yet created"), ?_⟩
        simp only [commitOps, hop, hres]
      | delete_task =>
        refine ⟨.valueError ("Pending task " ++ toString N ++
          " not yet created"), ?_⟩
        simp only [commitOps, hop, hres]
    | succ i2 =>
      have hi2 : i2 < rest.length := Nat.lt_of_succ_lt_succ hi
      have hwf2 : ∀ op2 ∈ rest, op2.type = .create_task →
          op2.target.1 = .pending :=
        fun op2 h2 => hwf op2 (List.mem_cons_of_mem op h2)
      have hty2 : (rest.get ⟨i2, hi2⟩).type ≠ .create_task := hty
      have htgt2 : (rest.get ⟨i2, hi2⟩).target = ((.pending, N) : Target) :=
        htgt
      have hprev2 : ∀ (j : Nat) (hj : j < rest.length), j < i2 →
          ¬((rest.get ⟨j, hj⟩).type = .create_task ∧
            (rest.get ⟨j, hj⟩).target = ((.pending, N) : Target)) := by
        intro j hj hji
        exact hprev (j + 1) (Nat.succ_lt_succ hj) (Nat.succ_lt_succ hji)
      cases hop : op.type with
      | create_task =>
        rcases hcr : create_task db scope (normalize_task_attrs op.attrs)
          with e | r
        · refine ⟨e, ?_⟩
          simp only [commitOps, hop, hcr]
        · have hne : op.target.2 ≠ N := by
            intro heq
            refine hprev 0 (Nat.succ_pos _) (Nat.succ_pos _) ⟨hop, ?_⟩
            have hp := hwf op (List.mem_cons_self op rest) hop
            show op.target = ((.pending, N) : Target)
            calc op.target = (op.target.1, op.target.2) := rfl
              _ = ((.pending, N) : Target) := by rw [hp, heq]
          obtain ⟨e, he⟩ := ih r.1 (pmapSet pmap op.target.2 r.2.id)
            { summary with
              created := summary.created ++ [(r.2.id, r.2.title)] } N i2 hi2
            (pmapFind_set_none pmap op.target.2 r.2.id N hne hpm)
            hwf2 hty2 htgt2 hprev2
          refine ⟨e, ?_⟩
          simp only [commitOps, hop, hcr]
          exact he
      | update_task =>
        rcases hrt : resolve_target op.target pmap with e | tid
        · exact ⟨e, by simp only [commitOps, hop, hrt]⟩
        rcases hup : update_task db scope tid
            (normalize_task_attrs op.attrs) with e | r
        · exact ⟨e, by simp only [commitOps, hop, hrt, hup]⟩
        · obtain ⟨e, he⟩ := ih r.1 pmap
            { summary with
              updated := summary.updated ++ [(r.2.id, r.2.title)] } N i2 hi2
            hpm hwf2 hty2 htgt2 hprev2
          exact ⟨e, by simp only [commitOps, hop, hrt, hup]; exact he⟩
      | complete_task =>
        rcases hrt : resolve_target op.target pmap with e | tid
        · exact ⟨e, by simp only [commitOps, hop, hrt]⟩
        rcases hcp : complete_task db scope tid with e | r
        · exact ⟨e, by simp only [commitOps, hop, hrt, hcp]⟩
        · obtain ⟨e, he⟩ := ih r.1 pmap
            { summary with
              completed := summary.completed ++ [(r.2.id, r.2.title)] }
            N i2 hi2 hpm hwf2 hty2 htgt2 hprev2
          exact ⟨e, by simp only [commitOps, hop, hrt, hcp]; exact he⟩
      | delete_task =>
        rcases hrt : resolve_target op.target pmap with e | tid
        · exact ⟨e, by simp only [commitOps, hop, hrt]⟩
        rcases hg : get_task_by_id db scope tid with _ | t
        · obtain ⟨e, he⟩ := ih db pmap summary N i2 hi2 hpm hwf2 hty2
            htgt2 hprev2
          exact ⟨e, by simp only [commitOps, hop, hrt, hg]; exact he⟩
        rcases hdel : delete_task db scope tid with e | db2
        · exact ⟨e, by simp only [commitOps, hop, hrt, hg, hdel]⟩
        · obtain ⟨e, he⟩ := ih db2 pmap
            { summary with deleted := summary.deleted ++ [(tid, t.title)] }
            N i2 hi2 hpm hwf2 hty2 htgt2 hprev2
          exact ⟨e, by simp only [commitOps, hop, hrt, hg, hdel]; exact he⟩

/-- C1: committing a batch in which some non-create operation targets
`pending:N` with no create for reference `N` earlier in staged order fails:
`complete_session` reports failure and leaves the machine — its state,
staged operations, plan notes and pending-reference counter — exactly as
before the attempt (the `pending_map` is built only from creates processed
earlier, so `_resolve_target` raises and the commit aborts).  The
hypothesis that staged creates carry pending targets holds for every batch
the machine can stage (`SessionInv`). -/
theorem c1_commit_unmapped_pending (m : Machine) (db : DB) (params : Attrs)
    (hwf : ∀ op ∈ m.pending_ops, op.type = .create_task →
      op.target.1 = .pending)
    (i : Nat) (hi : i < m.pending_ops.length) (N : Int)
    (hty : (m.pending_ops.get ⟨i, hi⟩).type ≠ .create_task)
    (htgt : (m.pending_ops.get ⟨i, hi⟩).target = ((.pending, N) : Target))
    (hprev : ∀ (j : Nat) (hj : j < m.pending_ops.length), j < i →
      ¬((m.pending_ops.get ⟨j, hj⟩).type = .create_task ∧
        (m.pending_ops.get ⟨j, hj⟩).target = ((.pending, N) : Target))) :
    (handle_command m db "complete_session" params).ok = false ∧
    (handle_command m db "complete_session" params).machine = m := by
  by_cases hc : m.state = .completed
  · unfold handle_command
    simp [hc]
  rw [handle_command_session m db params hc]
  obtain ⟨e, he⟩ := commitOps_unmapped_fails m.scope m.pending_ops db [] {}
    N i hi rfl hwf hty htgt hprev
  unfold handle_complete_session
  rcases hres : commitOps m.scope db [] {} m.pending_ops with ⟨res, db1⟩
  rw [hres] at he
  dsimp only at he
  rw [he]
  exact ⟨rfl, rfl⟩

/-- Witness for C1: a batch holding a lone update against `pending:1`
fails to commit and leaves the machine unchanged. -/
theorem c1_commit_unmapped_pending_witness :
    (handle_command
      { initMachine scW with
        pending_ops :=
          [(⟨.update_task, (.pending, 1), []⟩ : PendingOperation)] }
      dbEmpty "complete_session" []).ok = false := by
  refine (c1_commit_unmapped_pending _ dbEmpty [] ?_ 0 (by decide) 1
    (by decide) (by decide) ?_).1
  · decide
  · intro j hj hj0
    exact absurd hj0 (Nat.not_lt_zero j)

/-- C5 evidence: attribute normalization converts ISO date strings to date
values and replaces unparsable ones with `None` without raising, and renames
`status` to `task_status` — the keyword `create_task` expects, so a staged
status is applied by a create — but `update_task` applies fields through
`hasattr(task, field)` and `Task` has no `task_status` attribute, so a
staged status in an update is silently dropped: the commit below reports
success while the task's status remains `todo`. -/
theorem c5_status_update_dropped :
    normalize_task_attrs [("due_date", .vs "2024-01-01")] =
      [("due_date", .vd ⟨2024, 1, 1⟩)] ∧
    normalize_task_attrs [("due_date", .vs "not-a-date")] =
      [("due_date", .vn)] ∧
    normalize_task_attrs [("status", .vs "done")] =
      [("task_status", .vs "done")] ∧
    (match commitOps scW dbEmpty [] {}
        [{ type := .create_task, target := (.pending, 1),
           attrs := [("title", .vs "x"), ("status", .vs "done")] }] with
      | (.ok _, db1) => db1.tasks.map (fun t => t.status)
      | (.error _, _) => []) = ["done"] ∧
    (handle_command
      (handle_command
        (handle_command (initMachine scW) dbOneTask "select_task"
          [("target", .vs "existing:1")]).machine
        dbOneTask "update_task_fields" [("status", .vs "done")]).machine
      dbOneTask "complete_session" []).ok = true ∧
    (handle_command
      (handle_command
        (handle_command (initMachine scW) dbOneTask "select_task"
          [("target", .vs "existing:1")]).machine
        dbOneTask "update_task_fields" [("status", .vs "done")]).machine
      dbOneTask "complete_session" []).db.tasks.map (fun t => t.status) =
      ["todo"] := by
  decide

/-- C10: a staged delete whose resolved target is absent or inaccessible
(`get_task_by_id` returns `None`) is silently skipped during commit — the
database, the pending map and the commit summary are untouched and the
remaining operations proceed exactly as if the delete were not staged —
whereas a direct Task Store `delete_task` on such a target fails with
404 Not Found. -/
theorem c10_delete_skipped (db : DB) (scope : Scope) (pmap : PMap)
    (summary : Summary) (rest : List PendingOperation) (target : Target)
    (attrs : Attrs) (tid : Int)
    (hres : resolve_target target pmap = .ok tid)
    (hget : get_task_by_id db scope tid = none) :
    commitOps scope db pmap summary
      ({ type := .delete_task, target := target, attrs := attrs } :: rest) =
      commitOps scope db pmap summary rest ∧
    delete_task db scope tid = .error (.http 404 "Task not found") := by
  constructor
  · simp only [commitOps, hres, hget]
  · unfold delete_task
    rw [hget]

/-- Witness for C10: deleting the nonexistent task 7 from the empty store is
skipped by the commit loop. -/
theorem c10_delete_skipped_witness :
    commitOps scW dbEmpty [] {}
      [{ type := .delete_task, target := (.existing, 7), attrs := [] }] =
      commitOps scW dbEmpty [] {} [] :=
  (c10_delete_skipped dbEmpty scW [] {} [] (.existing, 7) [] 7
    rfl (by decide)).1

/-- C7: completing a task with at least one prerequisite whose status is not
`done` fails with the 400 PreconditionFailed error, raised before any
mutation: the task (and the whole store) is unchanged by the failed
attempt, as the commit-loop conjunct shows, and no successor task is
created. -/
theorem c7_complete_with_open_prereq (db : DB) (scope : Scope)
    (task_id : Int) (t : Task)
    (hget : get_task_by_id db scope task_id = some t)
    (hmod : can_modify_task scope t = true)
    (hinc : ∃ p ∈ prereqTasks db t, p.status ≠ "done") :
    ∃ k : Nat,
      0 < k ∧
      complete_task db scope task_id =
        .error (.http 400 ("Cannot complete: " ++ toString k ++
          " incomplete prerequisites")) ∧
      commitOps scope db [] {}
        [{ type := .complete_task, target := (.existing, task_id),
           attrs := [] }] =
        (.error (.http 400 ("Cannot complete: " ++ toString k ++
          " incomplete prerequisites")), db) := by
  obtain ⟨p, hp, hps⟩ := hinc
  have hpmem : p ∈ (prereqTasks db t).filter (fun q => !(q.status == "done")) := by
    rw [List.mem_filter]
    exact ⟨hp, by simp [hps]⟩
  have hiempty : ((prereqTasks db t).filter
      (fun q => !(q.status == "done"))).isEmpty = false := by
    cases hl : (prereqTasks db t).filter (fun q => !(q.status == "done")) with
    | nil => rw [hl] at hpmem; exact absurd hpmem (List.not_mem_nil p)
    | cons a as => rfl
  refine ⟨((prereqTasks db t).filter (fun q => !(q.status == "done"))).length,
    ?_, ?_, ?_⟩
  · exact List.length_pos.mpr (List.ne_nil_of_mem hpmem)
  · unfold complete_task
    rw [hget]
    simp [hmod, hiempty]
  · have hkey : complete_task db scope task_id =
        .error (.http 400 ("Cannot complete: " ++
          toString ((prereqTasks db t).filter
            (fun q => !(q.status == "done"))).length ++
          " incomplete prerequisites")) := by
      unfold complete_task
      rw [hget]
      simp [hmod, hiempty]
    simp only [commitOps]
    rw [show resolve_target ((.existing, task_id) : Target) [] =
      .ok task_id from rfl]
    dsimp only
    rw [hkey]

/-- Witness for C7: completing task 2 of the fixture (blocked by the
incomplete task 1) fails with one incomplete prerequisite. -/
theorem c7_complete_with_open_prereq_witness :
    ∃ k : Nat,
      0 < k ∧
      complete_task dbPrereq scW 2 =
        .error (.http 400 ("Cannot complete: " ++ toString k ++
          " incomplete prerequisites")) ∧
      commitOps scW dbPrereq [] {}
        [{ type := .complete_task, target := (.existing, 2),
           attrs := [] }] =
        (.error (.http 400 ("Cannot complete: " ++ toString k ++
          " incomplete prerequisites")), dbPrereq) := by
  refine c7_complete_with_open_prereq dbPrereq scW 2
    { id := 2, user_id := 1, title := "b" } (by decide) (by decide) ?_
  refine ⟨{ id := 1, user_id := 1, title := "a" }, ?_, ?_⟩
  · decide
  · decide

/-- C8: successfully completing an accessible owned task with recurrence
`weekly` and due date 2024-01-01 (all prerequisites done) marks the task
done and appends exactly one successor row: status `todo`, due date
2024-01-08, same title, description, notes, urgency, assignment and
recurrence, and every prerequisite edge of the original is copied to the
successor while remaining on the original.  Monthly and yearly recurrence
advance the due date by one calendar month / year with day clamping
(calendar-safe arithmetic, not day-count addition). -/
theorem c8_weekly_recurrence (db : DB) (scope : Scope) (task_id : Int)
    (t : Task) (hget : get_task_by_id db scope task_id = some t)
    (hmod : can_modify_task scope t = true)
    (hall : ∀ p ∈ prereqTasks db t, p.status = "done")
    (hrec : t.recurrence = "weekly")
    (hdue : t.due_date = some ⟨2024, 1, 1⟩) :
    ∃ succ : Task, ∃ dbr : DB,
      complete_task db scope task_id = .ok (dbr, succ) ∧
      succ.due_date = some ⟨2024, 1, 8⟩ ∧
      succ.status = "todo" ∧
      succ.title = t.title ∧
      succ.description = t.description ∧
      succ.notes = t.notes ∧
      succ.urgency = t.urgency ∧
      succ.assignee_id = t.assignee_id ∧
      succ.assigned_group_id = t.assigned_group_id ∧
      succ.recurrence = t.recurrence ∧
      dbr.tasks =
        db.tasks.map
          (fun x => if x.id == t.id then { t with status := "done" } else x)
          ++ [succ] ∧
      dbr.deps = db.deps ++
        (db.deps.filter (fun d => d.blocked_task_id == t.id)).map
          (fun d => (⟨succ.id, d.prereq_task_id⟩ : TaskDependency)) ∧
      (∀ d ∈ db.deps, d ∈ dbr.deps) ∧
      (∀ d ∈ db.deps, d.blocked_task_id = t.id →
        (⟨succ.id, d.prereq_task_id⟩ : TaskDependency) ∈ dbr.deps) ∧
      nextDueDate "monthly" ⟨2024, 1, 31⟩ = some ⟨2024, 2, 29⟩ ∧
      nextDueDate "monthly" ⟨2023, 1, 31⟩ = some ⟨2023, 2, 28⟩ ∧
      nextDueDate "yearly" ⟨2024, 2, 29⟩ = some ⟨2025, 2, 28⟩ ∧
      (∀ d : Date, nextDueDate "monthly" d = some (addOneMonth d)) ∧
      (∀ d : Date, nextDueDate "yearly" d = some (addOneYear d)) := by
  have hfil : (prereqTasks db t).filter (fun p => !(p.status == "done")) = [] := by
    rw [List.filter_eq_nil_iff]
    intro p hp
    simp [hall p hp]
  have hkey : complete_task db scope task_id =
      .ok (create_recurring_task (replaceTask db { t with status := "done" })
        { t with status := "done" }) := by
    unfold complete_task
    rw [hget]
    dsimp only
    simp [hmod, hfil, hrec]
  refine ⟨(create_recurring_task (replaceTask db { t with status := "done" })
      { t with status := "done" }).2,
    (create_recurring_task (replaceTask db { t with status := "done" })
      { t with status := "done" }).1, hkey, ?_⟩
  unfold create_recurring_task replaceTask
  dsimp only
  rw [show ({ t with status := "done" } : Task).due_date = some ⟨2024, 1, 1⟩
    from hdue]
  rw [show ({ t with status := "done" } : Task).recurrence = "weekly"
    from hrec]
  dsimp only
  rw [show nextDueDate "weekly" ⟨2024, 1, 1⟩ = some ⟨2024, 1, 8⟩ from rfl]
  refine ⟨rfl, rfl, rfl, rfl, rfl, rfl, rfl, rfl, rfl, rfl, rfl,
    ?_, ?_, by decide, by decide, by decide, fun d => rfl, fun d => rfl⟩
  · intro d hd
    exact List.mem_append_left _ hd
  · intro d hd hdb
    refine List.mem_append_right _ ?_
    refine List.mem_map.mpr ⟨d, ?_, rfl⟩
    rw [List.mem_filter]
    exact ⟨hd, by simp [hdb]⟩

/-- Witness for C8 at the recurring-task fixture. -/
theorem c8_weekly_recurrence_witness :
    ∃ succ : Task, ∃ dbr : DB,
      complete_task dbRecur scW 1 = .ok (dbr, succ) ∧
      succ.due_date = some ⟨2024, 1, 8⟩ := by
  obtain ⟨succ, dbr, h1, h2, _⟩ := c8_weekly_recurrence dbRecur scW 1
    { id := 1, user_id := 1, title := "r", due_date := some ⟨2024, 1, 1⟩,
      recurrence := "weekly" }
    (by decide) (by decide)
    (by decide) (by decide) (by decide)
  exact ⟨succ, dbr, h1, h2⟩

theorem find?_append_none {α : Type} (p : α → Bool) (l1 l2 : List α)
    (h : l1.find? p = none) : (l1 ++ l2).find? p = l2.find? p := by
  induction l1 with
  | nil => rfl
  | cons x l ih =>
    cases hx : p x with
    | false =>
      have h2 : l.find? p = none := by
        simpa [List.find?, hx] using h
      simpa [List.find?, List.cons_append, hx] using ih h2
    | true =>
      exfalso
      simp [List.find?, hx] at h

theorem map_keep_of_ne (l : List Task) (tnew : Task)
    (h : ∀ x ∈ l, x.id ≠ tnew.id) :
    l.map (fun x => if x.id == tnew.id then tnew else x) = l := by
  induction l with
  | nil => rfl
  | cons x l ih =>
    rw [List.map_cons]
    rw [if_neg (by simp [h x (List.mem_cons_self x l)])]
    rw [ih (fun y hy => h y (List.mem_cons_of_mem x hy))]

/-- C2: in a fresh session, staging `create_task(title=a)` (which receives
pending reference 1), selecting `pending:1`, staging
`update_task_fields(title=b)`, and committing with `complete_session`
succeeds, marks the session completed, and leaves the store with exactly one
new task — materialized by the create and then updated in the same batch —
whose final title is `b`.  The freshness hypothesis is the store id-sequence
invariant (existing rows never carry the next sequence id). -/
theorem c2_staged_update_of_pending_create (db : DB) (scope : Scope)
    (a b : String) (ha : a ≠ "")
    (hfresh : ∀ t ∈ db.tasks, t.id ≠ db.next_task_id)
    (r1 r2 r3 r4 : CmdResult)
    (h1 : r1 = handle_command (initMachine scope) db "create_task"
      [("title", .vs a)])
    (h2 : r2 = handle_command r1.machine r1.db "select_task"
      [("target", .vs "pending:1")])
    (h3 : r3 = handle_command r2.machine r2.db "update_task_fields"
      [("title", .vs b)])
    (h4 : r4 = handle_command r3.machine r3.db "complete_session" []) :
    r4.ok = true ∧ r4.machine.state = .completed ∧
    ∃ tnew : Task, r4.db.tasks = db.tasks ++ [tnew] ∧ tnew.title = b ∧
      tnew.id = db.next_task_id := by
  have htruthy : truthy (pyGet [("title", Val.vs a)] "title") = true := by
    simp [pyGet, dictFind, truthy, ha]
  have h1v : handle_command (initMachine scope) db "create_task"
      [("title", .vs a)] =
      ⟨true, "Task creation staged with pending_ref " ++ toString (1 : Int),
        { scope := scope, state := .awaiting_command,
          pending_ops := [⟨.create_task, (.pending, 1), [("title", .vs a)]⟩],
          edit_context := none, next_pending_ref := 2, plan_notes := [],
          error_count := 0 }, db, none⟩ := by
    rw [handle_command_create (initMachine scope) db [("title", .vs a)]
      (by intro hc; cases hc) htruthy]
    rfl
  have h2v : handle_command
      { scope := scope, state := .awaiting_command,
        pending_ops := [⟨.create_task, (.pending, 1), [("title", .vs a)]⟩],
        edit_context := none, next_pending_ref := 2, plan_notes := [],
        error_count := 0 }
      db "select_task" [("target", .vs "pending:1")] =
      ⟨true, "Selected task: pending:1",
        { scope := scope, state := .editing_task (.pending, 1),
          pending_ops := [⟨.create_task, (.pending, 1), [("title", .vs a)]⟩],
          edit_context := some (.pendingRef 1
            ⟨.create_task, (.pending, 1), [("title", .vs a)]⟩),
          next_pending_ref := 2, plan_notes := [], error_count := 0 },
        db, none⟩ := rfl
  have h3v : handle_command
      { scope := scope, state := .editing_task (.pending, 1),
        pending_ops := [⟨.create_task, (.pending, 1), [("title", .vs a)]⟩],
        edit_context := some (.pendingRef 1
          ⟨.create_task, (.pending, 1), [("title", .vs a)]⟩),
        next_pending_ref := 2, plan_notes := [], error_count := 0 }
      db "update_task_fields" [("title", .vs b)] =
      ⟨true, "Update staged",
        { scope := scope, state := .editing_task (.pending, 1),
          pending_ops := [⟨.create_task, (.pending, 1), [("title", .vs a)]⟩,
            ⟨.update_task, (.pending, 1), [("title", .vs b)]⟩],
          edit_context := some (.pendingRef 1
            ⟨.create_task, (.pending, 1), [("title", .vs a)]⟩),
          next_pending_ref := 2, plan_notes := [], error_count := 0 },
        db, none⟩ := rfl
  have hcreate : create_task db scope [("title", .vs a)] =
      .ok ((⟨db.tasks ++ [⟨db.next_task_id, scope.userId, none, none, a,
          none, none, "todo", "normal", none, none, "none"⟩], db.deps,
          db.memberships, db.next_task_id + 1⟩ : DB),
        (⟨db.next_task_id, scope.userId, none, none, a, none, none, "todo",
          "normal", none, none, "none"⟩ : Task)) := rfl
  have hfind0 : db.tasks.find? (fun x => x.id == db.next_task_id) = none :=
    List.find?_eq_none.mpr (fun x hx => by simp [hfresh x hx])
  have hget2 : get_task_by_id
      (⟨db.tasks ++ [⟨db.next_task_id, scope.userId, none, none, a, none,
        none, "todo", "normal", none, none, "none"⟩], db.deps,
        db.memberships, db.next_task_id + 1⟩ : DB) scope db.next_task_id =
      some (⟨db.next_task_id, scope.userId, none, none, a, none, none,
        "todo", "normal", none, none, "none"⟩ : Task) := by
    unfold get_task_by_id
    dsimp only
    rw [find?_append_none _ _ _ hfind0]
    rw [show ([(⟨db.next_task_id, scope.userId, none, none, a, none, none,
        "todo", "normal", none, none, "none"⟩ : Task)]).find?
        (fun x => x.id == db.next_task_id) = some
        (⟨db.next_task_id, scope.userId, none, none, a, none, none, "todo",
          "normal", none, none, "none"⟩ : Task) from by
      simp [List.find?]]
    dsimp only
    rw [if_pos]
    unfold can_access_task
    dsimp only
    rw [beq_self_eq_true]
    rfl
  have hmod2 : can_modify_task scope
      (⟨db.next_task_id, scope.userId, none, none, a, none, none, "todo",
        "normal", none, none, "none"⟩ : Task) = true := by
    unfold can_modify_task
    dsimp only
    exact beq_self_eq_true _
  have hup : update_task
      (⟨db.tasks ++ [⟨db.next_task_id, scope.userId, none, none, a, none,
        none, "todo", "normal", none, none, "none"⟩], db.deps,
        db.memberships, db.next_task_id + 1⟩ : DB) scope db.next_task_id
      [("title", .vs b)] =
      .ok ((⟨(db.tasks ++ [(⟨db.next_task_id, scope.userId, none, none, a,
            none, none, "todo", "normal", none, none, "none"⟩ : Task)]).map
            (fun x => if x.id ==
              (⟨db.next_task_id, scope.userId, none, none, b, none, none,
                "todo", "normal", none, none, "none"⟩ : Task).id then
              (⟨db.next_task_id, scope.userId, none, none, b, none, none,
                "todo", "normal", none, none, "none"⟩ : Task) else x),
          db.deps, db.memberships, db.next_task_id + 1⟩ : DB),
        (⟨db.next_task_id, scope.userId, none, none, b, none, none, "todo",
          "normal", none, none, "none"⟩ : Task)) := by
    unfold update_task
    rw [hget2]
    dsimp only
    rw [hmod2]
    rfl
  have hmap : (db.tasks ++ [(⟨db.next_task_id, scope.userId, none, none, a,
        none, none, "todo", "normal", none, none, "none"⟩ : Task)]).map
        (fun x => if x.id ==
          (⟨db.next_task_id, scope.userId, none, none, b, none, none,
            "todo", "normal", none, none, "none"⟩ : Task).id then
          (⟨db.next_task_id, scope.userId, none, none, b, none, none,
            "todo", "normal", none, none, "none"⟩ : Task) else x) =
      db.tasks ++ [(⟨db.next_task_id, scope.userId, none, none, b, none,
        none, "todo", "normal", none, none, "none"⟩ : Task)] := by
    rw [List.map_append]
    rw [map_keep_of_ne db.tasks _ (fun x hx => hfresh x hx)]
    rw [List.map_cons, List.map_nil]
    rw [if_pos (by rw [beq_self_eq_true])]
  have hcommit : commitOps scope db [] {}
      [⟨.create_task, (.pending, 1), [("title", .vs a)]⟩,
        ⟨.update_task, (.pending, 1), [("title", .vs b)]⟩] =
      (.ok ⟨[(db.next_task_id, a)], [(db.next_task_id, b)], [], []⟩,
        (⟨db.tasks ++ [⟨db.next_task_id, scope.userId, none, none, b, none,
          none, "todo", "normal", none, none, "none"⟩], db.deps,
          db.memberships, db.next_task_id + 1⟩ : DB)) := by
    simp only [commitOps]
    rw [show normalize_task_attrs [("title", Val.vs a)] =
      [("title", Val.vs a)] from rfl]
    rw [hcreate]
    dsimp only
    rw [show normalize_task_attrs [("title", Val.vs b)] =
      [("title", Val.vs b)] from rfl]
    rw [show resolve_target ((.pending, 1) : Target)
      (pmapSet [] 1 db.next_task_id) = Except.ok db.next_task_id from rfl]
    dsimp only
    rw [hup]
    dsimp only
    rw [hmap]
    rfl
  have h4v : handle_command
      { scope := scope, state := .editing_task (.pending, 1),
        pending_ops := [⟨.create_task, (.pending, 1), [("title", .vs a)]⟩,
          ⟨.update_task, (.pending, 1), [("title", .vs b)]⟩],
        edit_context := some (.pendingRef 1
          ⟨.create_task, (.pending, 1), [("title", .vs a)]⟩),
        next_pending_ref := 2, plan_notes := [], error_count := 0 }
      db "complete_session" [] =
      ⟨true, "Session completed successfully",
        { scope := scope, state := .completed,
          pending_ops := [⟨.create_task, (.pending, 1), [("title", .vs a)]⟩,
            ⟨.update_task, (.pending, 1), [("title", .vs b)]⟩],
          edit_context := some (.pendingRef 1
            ⟨.create_task, (.pending, 1), [("title", .vs a)]⟩),
          next_pending_ref := 2, plan_notes := [], error_count := 0 },
        (⟨db.tasks ++ [⟨db.next_task_id, scope.userId, none, none, b, none,
          none, "todo", "normal", none, none, "none"⟩], db.deps,
          db.memberships, db.next_task_id + 1⟩ : DB),
        some ⟨[(db.next_task_id, a)], [(db.next_task_id, b)], [], []⟩⟩ := by
    rw [handle_command_session _ db [] (by intro hc; cases hc)]
    unfold handle_complete_session
    dsimp only
    rw [hcommit]
  rw [h1v] at h1
  rw [h1] at h2
  dsimp only at h2
  rw [h2v] at h2
  rw [h2] at h3
  dsimp only at h3
  rw [h3v] at h3
  rw [h3] at h4
  dsimp only at h4
  rw [h4v] at h4
  rw [h4]
  refine ⟨rfl, rfl,
    ⟨db.next_task_id, scope.userId, none, none, b, none, none, "todo",
      "normal", none, none, "none"⟩, rfl, rfl, rfl⟩

/-- Witness for C2: the concrete run on the empty store with titles `A` and
`B` commits one task titled `B`. -/
theorem c2_staged_update_of_pending_create_witness :
    (handle_command
      (handle_command
        (handle_command
          (handle_command (initMachine scW) dbEmpty "create_task"
            [("title", .vs "A")]).machine
          (handle_command (initMachine scW) dbEmpty "create_task"
            [("title", .vs "A")]).db
          "select_task" [("target", .vs "pending:1")]).machine
        (handle_command
          (handle_command (initMachine scW) dbEmpty "create_task"
            [("title", .vs "A")]).machine
          (handle_command (initMachine scW) dbEmpty "create_task"
            [("title", .vs "A")]).db
          "select_task" [("target", .vs "pending:1")]).db
        "update_task_fields" [("title", .vs "B")]).machine
      (handle_command
        (handle_command
          (handle_command (initMachine scW) dbEmpty "create_task"
            [("title", .vs "A")]).machine
          (handle_command (initMachine scW) dbEmpty "create_task"
            [("title", .vs "A")]).db
          "select_task" [("target", .vs "pending:1")]).machine
        (handle_command
          (handle_command (initMachine scW) dbEmpty "create_task"
            [("title", .vs "A")]).machine
          (handle_command (initMachine scW) dbEmpty "create_task"
            [("title", .vs "A")]).db
          "select_task" [("target", .vs "pending:1")]).db
        "update_task_fields" [("title", .vs "B")]).db
      "complete_session" []).ok = true := by
  refine (c2_staged_update_of_pending_create dbEmpty scW "A" "B"
    (by decide) (by intro t ht; exact absurd ht (List.not_mem_nil t))
    _ _ _ _ rfl rfl rfl rfl).1

end Todo
